import Mathlib

/-!
Verification of the `trdl` 2D drawing library's core: the ear-clipping polygon
triangulator (`src/lib.rs` and `src/triangulation.rs`) and the path-to-geometry
compiler (`src/gl2d/drawing.rs`, `src/bin.rs`).

The triangulator exists in two variants in the repository:

* `src/lib.rs`: coordinates are `f32`; `classify_vertex` mutates the vertex's
  `is_convex` / `is_ear` flags as a side effect.
* `src/triangulation.rs`: generic over any coordinate type with comparison,
  subtraction, multiplication and a zero (instantiated at `f32`, `f64`, `i32`,
  `i16`, `isize`); `classify_vertex` is pure and flags are set only in
  `fill_sets`' second pass.

We embed both, shallowly, over an arbitrary `LinearOrderedRing` of coordinates
(this models the integer instances of the generic variant exactly; all concrete
test polygons in the repository have small integer coordinates, on which `f32`
arithmetic is likewise exact).  Rust's `HashSet<usize>` is modelled as a
duplicate-free `List Nat` (`hs_insert` / `hs_remove`); iteration order of a hash
set is arbitrary, so the main loop is parameterised by a `pick` function
standing for `ear_set.iter().next()`, constrained only by the two facts every
hash-set iterator satisfies: it yields `none` exactly on the empty set, and any
yielded element is a member.  The main loop executes while `n > 3` where `n`
starts at the vertex count and is decremented once per iteration, so we run it
on a structurally decreasing counter equal to `n`; the counter can never reach
the `none` ("fuel exhausted") case from `triangulate`'s entry state, which is
proved as theorem `tri_loop_isSome_of_four_le` below (claim C3).
-/

namespace Trdl

/-- One record of the triangulator's vertex array (`struct Vertex` in both
`src/lib.rs` and `src/triangulation.rs`). -/
structure Vertex where
  index : Nat
  prev_index : Nat
  next_index : Nat
  is_convex : Bool
  is_ear : Bool
deriving Repr, DecidableEq

/-- `Vertex::new` (flags start out false). -/
def Vertex.new (index prev_index next_index : Nat) : Vertex :=
  { index := index, prev_index := prev_index, next_index := next_index,
    is_convex := false, is_ear := false }

/-- Read a vertex record; Rust's `vertices[i]` (in-bounds at every use site,
which the invariant proofs establish). -/
def vget (vs : List Vertex) (i : Nat) : Vertex :=
  vs.getD i (Vertex.new 0 0 0)

variable {A : Type} [LinearOrderedRing A]

/-- Read a point; Rust's `points[i]` (in-bounds at every use site). -/
def pget (points : List (A × A)) (i : Nat) : A × A :=
  points.getD i (0, 0)

/-- `compare_to_line` of `src/lib.rs` (the `src/triangulation.rs` variant
classifies the same quantity's sign into Left / Right / On): negative if `t`
is left of the directed line `p -> n`, positive if right, zero if colinear. -/
def compare_to_line (t p n : A × A) : A :=
  (t.1 - p.1) * (n.2 - p.2) - (t.2 - p.2) * (n.1 - p.1)

/-- `is_convex`: a vertex is convex iff it lies strictly right of the line
from its predecessor to its successor (both source variants test this). -/
def is_convex (t p n : A × A) : Bool :=
  0 < compare_to_line t p n

/-- `is_in_triangle`: strictly left of all three directed edges. -/
def is_in_triangle (t v0 v1 v2 : A × A) : Bool :=
  if 0 ≤ compare_to_line t v0 v1 then false
  else if 0 ≤ compare_to_line t v1 v2 then false
  else if 0 ≤ compare_to_line t v2 v0 then false
  else true

/-- `is_ear`: no member of the reflex set, other than the test vertex's own
neighbours, lies strictly inside the triangle (prev, self, next).  The Rust
loop over the hash set returns `false` on the first offending member; the
result does not depend on iteration order, so `List.all` is faithful. -/
def is_ear (points : List (A × A)) (reflex_set : List Nat) (v : Vertex) : Bool :=
  reflex_set.all fun r =>
    if r = v.prev_index ∨ r = v.next_index then true
    else ! is_in_triangle (pget points r) (pget points v.prev_index)
           (pget points v.index) (pget points v.next_index)

/-- `make_vertex_vec`: the initial circular doubly-linked list over indices
`0 .. n-1` (first and last pushed explicitly, the middle in a loop). -/
def make_vertex_vec (n : Nat) : List Vertex :=
  Vertex.new 0 (n - 1) 1 ::
    (((List.range' 1 (n - 2)).map fun i => Vertex.new i (i - 1) (i + 1)) ++
      [Vertex.new (n - 1) (n - 2) 0])

/-- Classification result (`enum VertexType`). -/
inductive VertexType where
  | Reflex
  | Convex
  | Ear
deriving Repr, DecidableEq

/-- `HashSet::insert` on the list model: no duplicate is ever created. -/
def hs_insert (s : List Nat) (i : Nat) : List Nat :=
  if i ∈ s then s else i :: s

/-- `HashSet::remove` on the list model. -/
def hs_remove (s : List Nat) (i : Nat) : List Nat :=
  s.erase i

namespace Lib

/-- `classify_vertex` of `src/lib.rs`: classifies and, as a side effect on the
`&mut Vertex`, sets `is_convex` when convex and `is_ear` when an ear.  Returned
here as (classification, updated record). -/
def classify_vertex (points : List (A × A)) (v : Vertex) (reflex_set : List Nat) :
    VertexType × Vertex :=
  if is_convex (pget points v.index) (pget points v.prev_index) (pget points v.next_index) then
    let v1 := { v with is_convex := true }
    if is_ear points reflex_set v1 then
      (VertexType.Ear, { v1 with is_ear := true })
    else
      (VertexType.Convex, v1)
  else
    (VertexType.Reflex, v)

/-- First pass of `fill_sets` (`src/lib.rs`): iterate the vertex array in
order, classifying against the reflex set built so far, inserting reflex
indices; `classify_vertex`'s flag mutations are written back. -/
def pass1 (points : List (A × A)) :
    List Nat → List Vertex → List Nat → List Vertex × List Nat
  | [], vs, rs => (vs, rs)
  | i :: rest, vs, rs =>
    let c := classify_vertex points (vget vs i) rs
    pass1 points rest (vs.set i c.2)
      (if c.1 = VertexType.Reflex then hs_insert rs c.2.index else rs)

/-- Second pass of `fill_sets` (`src/lib.rs`): re-classify against the
complete reflex set; the match arms set `is_convex` (and for ears `is_ear`)
and insert ears into the ear set.  Flags already set in pass 1 are never
cleared. -/
def pass2 (points : List (A × A)) :
    List Nat → List Vertex → List Nat → List Nat → List Vertex × List Nat
  | [], vs, _, es => (vs, es)
  | i :: rest, vs, rs, es =>
    let c := classify_vertex points (vget vs i) rs
    match c.1 with
    | VertexType.Reflex => pass2 points rest (vs.set i c.2) rs es
    | VertexType.Convex =>
        pass2 points rest (vs.set i { c.2 with is_convex := true }) rs es
    | VertexType.Ear =>
        pass2 points rest (vs.set i { c.2 with is_convex := true, is_ear := true }) rs
          (hs_insert es c.2.index)

/-- `fill_sets` of `src/lib.rs`: two passes; returns the updated vertex array
and `(ear_set, reflex_set)`. -/
def fill_sets (points : List (A × A)) (vertices : List Vertex) :
    List Vertex × List Nat × List Nat :=
  let p1 := pass1 points (List.range vertices.length) vertices []
  let p2 := pass2 points (List.range vertices.length) p1.1 p1.2 []
  (p2.1, p2.2, p1.2)

end Lib

namespace Tri

/-- `classify_vertex` of `src/triangulation.rs`: pure, no flag mutation. -/
def classify_vertex (points : List (A × A)) (v : Vertex) (reflex_set : List Nat) :
    VertexType :=
  if is_convex (pget points v.index) (pget points v.prev_index) (pget points v.next_index) then
    if is_ear points reflex_set v then VertexType.Ear else VertexType.Convex
  else
    VertexType.Reflex

/-- First pass of `fill_sets` (`src/triangulation.rs`): build the reflex set;
no vertex flags are touched. -/
def pass1 (points : List (A × A)) (vs : List Vertex) :
    List Nat → List Nat → List Nat
  | [], rs => rs
  | i :: rest, rs =>
    pass1 points vs rest
      (if classify_vertex points (vget vs i) rs = VertexType.Reflex
       then hs_insert rs (vget vs i).index else rs)

/-- Second pass of `fill_sets` (`src/triangulation.rs`): classify against the
complete reflex set, set flags per the match arms, and collect the ear set. -/
def pass2 (points : List (A × A)) (rs : List Nat) :
    List Nat → List Vertex → List Nat → List Vertex × List Nat
  | [], vs, es => (vs, es)
  | i :: rest, vs, es =>
    let v := vget vs i
    match classify_vertex points v rs with
    | VertexType.Reflex => pass2 points rs rest vs es
    | VertexType.Convex => pass2 points rs rest (vs.set i { v with is_convex := true }) es
    | VertexType.Ear =>
        pass2 points rs rest (vs.set i { v with is_convex := true, is_ear := true })
          (hs_insert es v.index)

/-- `fill_sets` of `src/triangulation.rs`. -/
def fill_sets (points : List (A × A)) (vertices : List Vertex) :
    List Vertex × List Nat × List Nat :=
  let rs := pass1 points vertices (List.range vertices.length) []
  let p2 := pass2 points rs (List.range vertices.length) vertices []
  (p2.1, p2.2, rs)

end Tri

/-- `remove_vertex`: unlink a vertex from the circular doubly-linked list
(its prev and next now point to each other). -/
def remove_vertex (vs : List Vertex) (i : Nat) : List Vertex :=
  let p := (vget vs i).prev_index
  let q := (vget vs i).next_index
  let vs1 := vs.set p { vget vs p with next_index := q }
  vs1.set q { vget vs1 q with prev_index := p }

/-- `push_triangle`: emit a triple in the order (prev, test, next). -/
def push_triangle (triangles : List Nat) (i_test i_prev i_next : Nat) : List Nat :=
  triangles ++ [i_prev, i_test, i_next]

/-- Error message of `triangulate` when the ear set is unexpectedly empty. -/
def errNoEar : String := "Expected an ear in the ear set but found None"

/-- Error message of `triangulate` for fewer than three points. -/
def errNotEnough : String := "Not enough vertices to triangulate"

/-- The re-classification of one neighbour (`prev` or `next`) of a clipped
ear, common to both source variants (the two textually identical blocks at
the bottom of the main loop).  If the neighbour's `is_ear` flag is set, only
its ear status is re-checked (and it is demoted on failure); otherwise, if it
is now convex, it is removed from the reflex set when its `is_convex` flag was
unset, and inserted into the ear set when the ear test passes. -/
def update_neighbor (points : List (A × A))
    (st : List Vertex × List Nat × List Nat) (j : Nat) :
    List Vertex × List Nat × List Nat :=
  let vs := st.1
  let es := st.2.1
  let rs := st.2.2
  let v := vget vs j
  if v.is_ear then
    if ! is_ear points rs v then
      (vs.set j { v with is_ear := false }, hs_remove es j, rs)
    else
      (vs, es, rs)
  else
    if is_convex (pget points j) (pget points v.prev_index) (pget points v.next_index) then
      let vs1 := if ! v.is_convex then vs.set j { v with is_convex := true } else vs
      let rs1 := if ! v.is_convex then hs_remove rs j else rs
      if is_ear points rs1 (vget vs1 j) then
        (vs1, hs_insert es j, rs1)
      else
        (vs1, es, rs1)
    else
      (vs, es, rs)

/-- The main clipping loop, common to both source variants.  The first
argument after `pick` is the loop counter `n` (number of surviving vertices),
used as structurally decreasing fuel; `none` is returned exactly when the
counter would go below 4 without the loop having returned, which is impossible
from `triangulate`'s entry state (theorem `tri_loop_isSome_of_four_le`). -/
def tri_loop (points : List (A × A)) (pick : List Nat → Option Nat) :
    Nat → List Vertex → List Nat → List Nat → List Nat →
    Option (Except String (List Nat))
  | 0, _, _, _, _ => none
  | n + 1, vs, es, rs, tris =>
    match pick es with
    | none => some (Except.error errNoEar)
    | some ear_index =>
      let es1 := hs_remove es ear_index
      let p := (vget vs ear_index).prev_index
      let q := (vget vs ear_index).next_index
      let tris1 := push_triangle tris ear_index p q
      let vs1 := remove_vertex vs ear_index
      if n = 3 then
        match pick es1 with
        | none => some (Except.error errNoEar)
        | some e2 =>
          some (Except.ok (push_triangle tris1 e2
            (vget vs1 e2).prev_index (vget vs1 e2).next_index))
      else
        let st1 := update_neighbor points (vs1, es1, rs) p
        let st2 := update_neighbor points st1 q
        tri_loop points pick n st2.1 st2.2.1 st2.2.2 tris1

/-- `triangulate`, parameterised by the variant's `fill_sets` and by the
hash-set iteration choice `pick`. -/
def triangulate_with
    (fill : List (A × A) → List Vertex → List Vertex × List Nat × List Nat)
    (pick : List Nat → Option Nat) (points : List (A × A)) :
    Except String (List Nat) :=
  let n := points.length
  if n < 4 then
    if n = 3 then Except.ok [0, 1, 2] else Except.error errNotEnough
  else
    let st := fill points (make_vertex_vec n)
    match tri_loop points pick n st.1 st.2.1 st.2.2 [] with
    | some r => r
    | none => Except.error errNoEar

/-- `triangulate` of `src/lib.rs`. -/
def Lib.triangulate (pick : List Nat → Option Nat) (points : List (A × A)) :
    Except String (List Nat) :=
  triangulate_with Lib.fill_sets pick points

/-- `triangulate` of `src/triangulation.rs`. -/
def Tri.triangulate (pick : List Nat → Option Nat) (points : List (A × A)) :
    Except String (List Nat) :=
  triangulate_with Tri.fill_sets pick points

/-- A concrete admissible hash-set iteration order: always pick the smallest
member.  Used to instantiate theorems quantified over `pick`. -/
def pick_min : List Nat → Option Nat
  | [] => none
  | x :: xs => some (xs.foldl Nat.min x)

/-- A second concrete admissible iteration order: pick the list head. -/
def pick_head : List Nat → Option Nat
  | [] => none
  | x :: _ => some x

/-- Admissibility of a `pick` function as a model of `HashSet::iter().next()`:
it yields `none` exactly on the empty set and only yields members. -/
def PickOk (pick : List Nat → Option Nat) : Prop :=
  (∀ s i, pick s = some i → i ∈ s) ∧ (∀ s, pick s = none ↔ s = [])

/-- The structural part of a vertex record: its own index and its two
neighbour links; the classification functions read nothing else. -/
def shape (v : Vertex) : Nat × Nat × Nat :=
  (v.index, v.prev_index, v.next_index)

/-- The predecessor index a polygon vertex starts out with in
`make_vertex_vec`. -/
def iprev (n i : Nat) : Nat :=
  if i = 0 then n - 1 else i - 1

/-- The successor index a polygon vertex starts out with in
`make_vertex_vec`. -/
def inext (n i : Nat) : Nat :=
  if i = n - 1 then 0 else i + 1

theorem length_make_vertex_vec (n : Nat) (h : 2 ≤ n) :
    (make_vertex_vec n).length = n := by
  simp [make_vertex_vec]
  omega

theorem vget_make_vertex_vec (n : Nat) (h : 2 ≤ n) (i : Nat) (hi : i < n) :
    vget (make_vertex_vec n) i = Vertex.new i (iprev n i) (inext n i) := by
  unfold vget make_vertex_vec iprev inext
  cases i with
  | zero =>
    have hne : ¬ (0 = n - 1) := by omega
    simp [List.getD_eq_getElem?_getD, hne]
  | succ k =>
    have hml : ((List.range' 1 (n - 2)).map
        fun j => Vertex.new j (j - 1) (j + 1)).length = n - 2 := by simp
    rw [List.getD_eq_getElem?_getD, List.getElem?_cons_succ, List.getElem?_append]
    by_cases h2 : k + 1 < n - 1
    · have hm : k < ((List.range' 1 (n - 2)).map
          fun j => Vertex.new j (j - 1) (j + 1)).length := by rw [hml]; omega
      have hr : k < n - 2 := by omega
      have hne : ¬ (k + 1 = n - 1) := by omega
      have hc : 1 + k = k + 1 := by omega
      simp [hm, List.getElem?_map, List.getElem?_range', hr, hne, hc]
    · have hk1 : k + 1 = n - 1 := by omega
      have hm : ¬ (k < ((List.range' 1 (n - 2)).map
          fun j => Vertex.new j (j - 1) (j + 1)).length) := by rw [hml]; omega
      have hm2 : ¬ k < n - 2 := by omega
      have hz2 : k - (n - 2) = 0 := by omega
      have hne0 : ¬ (n - 1 = 0) := by omega
      simp [hm, hm2, hz2, hk1, hne0, Vertex.new]
      omega

theorem mem_hs_insert (s : List Nat) (i j : Nat) :
    j ∈ hs_insert s i ↔ j = i ∨ j ∈ s := by
  unfold hs_insert
  by_cases h : i ∈ s
  · simp [h]
    intro hj
    subst hj
    exact h
  · simp [h]

theorem nodup_hs_insert (s : List Nat) (i : Nat) (h : s.Nodup) :
    (hs_insert s i).Nodup := by
  unfold hs_insert
  by_cases hm : i ∈ s <;> simp [hm, h]

theorem nodup_hs_remove (s : List Nat) (i : Nat) (h : s.Nodup) :
    (hs_remove s i).Nodup :=
  h.erase i

theorem mem_hs_remove (s : List Nat) (h : s.Nodup) (i j : Nat) :
    j ∈ hs_remove s i ↔ j ≠ i ∧ j ∈ s :=
  h.mem_erase_iff

theorem vget_set_self (vs : List Vertex) (i : Nat) (v : Vertex) (h : i < vs.length) :
    vget (vs.set i v) i = v := by
  simp [vget, List.getD_eq_getElem?_getD, List.getElem?_set_self, h]

theorem vget_set_ne (vs : List Vertex) (i j : Nat) (v : Vertex) (h : i ≠ j) :
    vget (vs.set i v) j = vget vs j := by
  simp [vget, List.getD_eq_getElem?_getD, List.getElem?_set_ne h]

theorem set_vget_self (vs : List Vertex) (i : Nat) (h : i < vs.length) :
    vs.set i (vget vs i) = vs := by
  apply List.ext_getElem?
  intro j
  by_cases hj : i = j
  · subst hj
    simp [List.getElem?_set_self, h, vget, List.getD_eq_getElem?_getD,
      List.getElem?_eq_getElem, h]
  · simp [List.getElem?_set_ne hj]

variable {A : Type} [LinearOrderedRing A]

theorem is_ear_shape (points : List (A × A)) (rs : List Nat) (v w : Vertex)
    (h : shape v = shape w) : is_ear points rs v = is_ear points rs w := by
  obtain ⟨h1, h2, h3⟩ : v.index = w.index ∧ v.prev_index = w.prev_index ∧
      v.next_index = w.next_index := by
    simpa [shape, Prod.ext_iff] using h
  unfold is_ear
  rw [h1, h2, h3]

/-- The pure classification reads only a vertex record's structural part. -/
theorem classify_shape (points : List (A × A)) (rs : List Nat) (v w : Vertex)
    (h : shape v = shape w) :
    Tri.classify_vertex points v rs = Tri.classify_vertex points w rs := by
  obtain ⟨h1, h2, h3⟩ : v.index = w.index ∧ v.prev_index = w.prev_index ∧
      v.next_index = w.next_index := by
    simpa [shape, Prod.ext_iff] using h
  unfold Tri.classify_vertex
  rw [h1, h2, h3, is_ear_shape points rs v w (by simp [shape, h1, h2, h3])]

/-- Reflex-ness does not depend on the reflex set passed to the classifier. -/
theorem classify_reflex_iff (points : List (A × A)) (rs : List Nat) (v : Vertex) :
    Tri.classify_vertex points v rs = VertexType.Reflex ↔
      is_convex (pget points v.index) (pget points v.prev_index)
        (pget points v.next_index) = false := by
  unfold Tri.classify_vertex
  by_cases h : is_convex (pget points v.index) (pget points v.prev_index)
      (pget points v.next_index)
  · simp [h]
    by_cases he : is_ear points rs v <;> simp [he]
  · simp [h]

/-- Ear-ness per the pure classifier. -/
theorem classify_ear_iff (points : List (A × A)) (rs : List Nat) (v : Vertex) :
    Tri.classify_vertex points v rs = VertexType.Ear ↔
      is_convex (pget points v.index) (pget points v.prev_index)
        (pget points v.next_index) = true ∧ is_ear points rs v = true := by
  unfold Tri.classify_vertex
  by_cases h : is_convex (pget points v.index) (pget points v.prev_index)
      (pget points v.next_index)
  · by_cases he : is_ear points rs v <;> simp [h, he]
  · simp [h]

/-- The `src/lib.rs` classifier returns the same classification as the pure
`src/triangulation.rs` one. -/
theorem lib_classify_fst (points : List (A × A)) (rs : List Nat) (v : Vertex) :
    (Lib.classify_vertex points v rs).1 = Tri.classify_vertex points v rs := by
  unfold Lib.classify_vertex Tri.classify_vertex
  by_cases h : is_convex (pget points v.index) (pget points v.prev_index)
      (pget points v.next_index)
  · have he : is_ear points rs { v with is_convex := true } = is_ear points rs v :=
      is_ear_shape points rs _ v (by simp [shape])
    simp only [h, if_true]
    rw [he]
    by_cases he2 : is_ear points rs v <;> simp [he2]
  · simp [h]

/-- The `src/lib.rs` classifier's flag mutations keep the structural part. -/
theorem lib_classify_snd_shape (points : List (A × A)) (rs : List Nat) (v : Vertex) :
    shape (Lib.classify_vertex points v rs).2 = shape v := by
  unfold Lib.classify_vertex
  by_cases h : is_convex (pget points v.index) (pget points v.prev_index)
      (pget points v.next_index)
  · simp only [h, if_true]
    by_cases he : is_ear points rs { v with is_convex := true } <;> simp [he, shape]
  · simp [h]

theorem tri_pass1_mem (points : List (A × A)) (vs : List Vertex) :
    ∀ (idxs rs : List Nat) (r : Nat),
      r ∈ Tri.pass1 points vs idxs rs ↔
        r ∈ rs ∨ ∃ i ∈ idxs, (vget vs i).index = r ∧
          is_convex (pget points (vget vs i).index)
            (pget points (vget vs i).prev_index)
            (pget points (vget vs i).next_index) = false := by
  intro idxs
  induction idxs with
  | nil => intro rs r; simp [Tri.pass1]
  | cons i rest ih =>
    intro rs r
    rw [Tri.pass1]
    by_cases hc : Tri.classify_vertex points (vget vs i) rs = VertexType.Reflex
    · rw [if_pos hc, ih, mem_hs_insert]
      rw [classify_reflex_iff] at hc
      simp only [List.mem_cons]
      constructor
      · rintro ((rfl | hr) | ⟨i', hi', hr⟩)
        · exact Or.inr ⟨i, Or.inl rfl, rfl, hc⟩
        · exact Or.inl hr
        · exact Or.inr ⟨i', Or.inr hi', hr⟩
      · rintro (hr | ⟨i', (rfl | hi'), hr⟩)
        · exact Or.inl (Or.inr hr)
        · exact Or.inl (Or.inl hr.1.symm)
        · exact Or.inr ⟨i', hi', hr⟩
    · rw [if_neg hc, ih]
      rw [classify_reflex_iff] at hc
      simp only [List.mem_cons]
      constructor
      · rintro (hr | ⟨i', hi', hr⟩)
        · exact Or.inl hr
        · exact Or.inr ⟨i', Or.inr hi', hr⟩
      · rintro (hr | ⟨i', (rfl | hi'), hr⟩)
        · exact Or.inl hr
        · exact absurd hr.2 hc
        · exact Or.inr ⟨i', hi', hr⟩

theorem tri_pass1_nodup (points : List (A × A)) (vs : List Vertex) :
    ∀ (idxs rs : List Nat), rs.Nodup → (Tri.pass1 points vs idxs rs).Nodup := by
  intro idxs
  induction idxs with
  | nil => intro rs h; simpa [Tri.pass1] using h
  | cons i rest ih =>
    intro rs h
    rw [Tri.pass1]
    by_cases hc : Tri.classify_vertex points (vget vs i) rs = VertexType.Reflex
    · rw [if_pos hc]; exact ih _ (nodup_hs_insert _ _ h)
    · rw [if_neg hc]; exact ih _ h

/-- The two variants' first passes build the same reflex set, given vertex
arrays with the same structural parts (`lib.rs`'s flag mutations do not
influence classification). -/
theorem lib_pass1_agree (points : List (A × A)) :
    ∀ (idxs : List Nat) (vs vs' : List Vertex) (rs : List Nat),
      (∀ j, shape (vget vs j) = shape (vget vs' j)) →
      (∀ i ∈ idxs, i < vs.length) →
      (Lib.pass1 points idxs vs rs).2 = Tri.pass1 points vs' idxs rs := by
  intro idxs
  induction idxs with
  | nil => intro vs vs' rs _ _; rfl
  | cons i rest ih =>
    intro vs vs' rs hsh hb
    have hi : i < vs.length := hb i (List.mem_cons_self i rest)
    rw [Lib.pass1, Tri.pass1]
    have hfst : (Lib.classify_vertex points (vget vs i) rs).1 =
        Tri.classify_vertex points (vget vs' i) rs := by
      rw [lib_classify_fst]
      exact classify_shape points rs _ _ (hsh i)
    have hidx : (Lib.classify_vertex points (vget vs i) rs).2.index =
        (vget vs' i).index := by
      have h1 := lib_classify_snd_shape points rs (vget vs i)
      have h2 := hsh i
      simp [shape, Prod.ext_iff] at h1 h2
      omega
    have hrec : ∀ rs2, (Lib.pass1 points rest
        (vs.set i (Lib.classify_vertex points (vget vs i) rs).2) rs2).2 =
        Tri.pass1 points vs' rest rs2 := by
      intro rs2
      apply ih
      · intro j
        by_cases hj : i = j
        · subst hj
          rw [vget_set_self _ _ _ hi, lib_classify_snd_shape]
          exact hsh i
        · rw [vget_set_ne _ _ _ _ hj]
          exact hsh j
      · intro i' hi'
        rw [List.length_set]
        exact hb i' (List.mem_cons_of_mem i hi')
    simp only [hfst]
    by_cases hc : Tri.classify_vertex points (vget vs' i) rs = VertexType.Reflex
    · rw [if_pos hc, if_pos hc, hidx, hrec]
    · rw [if_neg hc, if_neg hc, hrec]

/-- `lib.rs`'s first pass only mutates flags: vertex array length and every
record's structural part are unchanged. -/
theorem lib_pass1_shape (points : List (A × A)) :
    ∀ (idxs : List Nat) (vs : List Vertex) (rs : List Nat),
      (∀ i ∈ idxs, i < vs.length) →
      (Lib.pass1 points idxs vs rs).1.length = vs.length ∧
      ∀ j, shape (vget (Lib.pass1 points idxs vs rs).1 j) = shape (vget vs j) := by
  intro idxs
  induction idxs with
  | nil => intro vs rs _; exact ⟨rfl, fun _ => rfl⟩
  | cons i rest ih =>
    intro vs rs hb
    have hi : i < vs.length := hb i (List.mem_cons_self i rest)
    rw [Lib.pass1]
    have hb2 : ∀ i' ∈ rest, i' < (vs.set i (Lib.classify_vertex points (vget vs i) rs).2).length := by
      intro i' hi'
      rw [List.length_set]
      exact hb i' (List.mem_cons_of_mem i hi')
    obtain ⟨hl, hs2⟩ := ih (vs.set i (Lib.classify_vertex points (vget vs i) rs).2)
      (if (Lib.classify_vertex points (vget vs i) rs).1 = VertexType.Reflex
       then hs_insert rs (Lib.classify_vertex points (vget vs i) rs).2.index else rs) hb2
    refine ⟨by rw [hl, List.length_set], fun j => ?_⟩
    rw [hs2 j]
    by_cases hj : i = j
    · subst hj
      rw [vget_set_self _ _ _ hi, lib_classify_snd_shape]
    · rw [vget_set_ne _ _ _ _ hj]

/-- The two variants' second passes agree entirely: `lib.rs`'s extra flag
mutations in `classify_vertex` coincide with what the match arms write. -/
theorem pass2_agree (points : List (A × A)) (rsf : List Nat) :
    ∀ (idxs : List Nat) (vs : List Vertex) (es : List Nat),
      (∀ i ∈ idxs, i < vs.length) →
      Lib.pass2 points idxs vs rsf es = Tri.pass2 points rsf idxs vs es := by
  intro idxs
  induction idxs with
  | nil => intro vs es _; rfl
  | cons i rest ih =>
    intro vs es hb
    have hi : i < vs.length := hb i (List.mem_cons_self i rest)
    have hb2 : ∀ (w : Vertex) (i' : Nat), i' ∈ rest → i' < (vs.set i w).length := by
      intro w i' hi'
      rw [List.length_set]
      exact hb i' (List.mem_cons_of_mem i hi')
    rw [Lib.pass2, Tri.pass2]
    by_cases h1 : is_convex (pget points (vget vs i).index)
        (pget points (vget vs i).prev_index) (pget points (vget vs i).next_index)
    · by_cases h2 : is_ear points rsf { vget vs i with is_convex := true }
      · have h2v : is_ear points rsf (vget vs i) = true := by
          rw [← is_ear_shape points rsf { vget vs i with is_convex := true }
            (vget vs i) (by simp [shape])]
          exact h2
        simp only [Lib.classify_vertex, Tri.classify_vertex, h1, h2, h2v, if_true]
        exact ih _ _ (hb2 _)
      · have h2v : is_ear points rsf (vget vs i) = false := by
          rw [← is_ear_shape points rsf { vget vs i with is_convex := true }
            (vget vs i) (by simp [shape])]
          simpa using h2
        simp only [Lib.classify_vertex, Tri.classify_vertex, h1, h2, h2v, if_true,
          if_false, Bool.false_eq_true]
        exact ih _ _ (hb2 _)
    · simp only [Lib.classify_vertex, Tri.classify_vertex, h1, if_false,
        Bool.false_eq_true]
      rw [set_vget_self _ _ hi]
      exact ih _ _ (fun i' hi' => hb i' (List.mem_cons_of_mem i hi'))

theorem shape_vget_set (vs : List Vertex) (i : Nat) (w : Vertex)
    (hw : shape w = shape (vget vs i)) (j : Nat) :
    shape (vget (vs.set i w) j) = shape (vget vs j) := by
  by_cases hl : i < vs.length
  · by_cases hj : i = j
    · subst hj; rw [vget_set_self _ _ _ hl, hw]
    · rw [vget_set_ne _ _ _ _ hj]
  · rw [List.set_eq_of_length_le (le_of_not_lt hl)]

/-- One step of the second pass, with the `let` unfolded. -/
theorem tri_pass2_cons (points : List (A × A)) (rsf : List Nat) (i : Nat)
    (rest : List Nat) (vs : List Vertex) (es : List Nat) :
    Tri.pass2 points rsf (i :: rest) vs es =
      match Tri.classify_vertex points (vget vs i) rsf with
      | VertexType.Reflex => Tri.pass2 points rsf rest vs es
      | VertexType.Convex =>
          Tri.pass2 points rsf rest (vs.set i { vget vs i with is_convex := true }) es
      | VertexType.Ear =>
          Tri.pass2 points rsf rest
            (vs.set i { vget vs i with is_convex := true, is_ear := true })
            (hs_insert es (vget vs i).index) := rfl

theorem tri_pass2_len (points : List (A × A)) (rsf : List Nat) :
    ∀ (idxs : List Nat) (vs : List Vertex) (es : List Nat),
      (Tri.pass2 points rsf idxs vs es).1.length = vs.length := by
  intro idxs
  induction idxs with
  | nil => intro vs es; rfl
  | cons i rest ih =>
    intro vs es
    rw [tri_pass2_cons]
    cases hc : Tri.classify_vertex points (vget vs i) rsf <;>
      simp [ih, List.length_set]

theorem tri_pass2_shape (points : List (A × A)) (rsf : List Nat) :
    ∀ (idxs : List Nat) (vs : List Vertex) (es : List Nat) (j : Nat),
      shape (vget (Tri.pass2 points rsf idxs vs es).1 j) = shape (vget vs j) := by
  intro idxs
  induction idxs with
  | nil => intro vs es j; rfl
  | cons i rest ih =>
    intro vs es j
    rw [tri_pass2_cons]
    cases hc : Tri.classify_vertex points (vget vs i) rsf
    · exact ih vs es j
    · rw [ih, shape_vget_set _ _ _ (by simp [shape])]
    · rw [ih, shape_vget_set _ _ _ (by simp [shape])]

theorem tri_pass2_untouched (points : List (A × A)) (rsf : List Nat) :
    ∀ (idxs : List Nat) (vs : List Vertex) (es : List Nat) (j : Nat), j ∉ idxs →
      vget (Tri.pass2 points rsf idxs vs es).1 j = vget vs j := by
  intro idxs
  induction idxs with
  | nil => intro vs es j _; rfl
  | cons i rest ih =>
    intro vs es j hj
    have hne : i ≠ j := fun h => hj (h ▸ List.mem_cons_self i rest)
    have hrest : j ∉ rest := fun h => hj (List.mem_cons_of_mem i h)
    rw [tri_pass2_cons]
    cases hc : Tri.classify_vertex points (vget vs i) rsf
    · exact ih vs es j hrest
    · rw [ih _ _ _ hrest, vget_set_ne _ _ _ _ hne]
    · rw [ih _ _ _ hrest, vget_set_ne _ _ _ _ hne]

theorem tri_pass2_mem (points : List (A × A)) (rsf : List Nat) :
    ∀ (idxs : List Nat) (vs : List Vertex) (es : List Nat) (r : Nat),
      r ∈ (Tri.pass2 points rsf idxs vs es).2 ↔
        r ∈ es ∨ ∃ i ∈ idxs, (vget vs i).index = r ∧
          Tri.classify_vertex points (vget vs i) rsf = VertexType.Ear := by
  intro idxs
  induction idxs with
  | nil => intro vs es r; simp [Tri.pass2]
  | cons i rest ih =>
    intro vs es r
    have hshape : ∀ (w : Vertex), shape w = shape (vget vs i) →
        ∀ i', (vget (vs.set i w) i').index = (vget vs i').index ∧
          Tri.classify_vertex points (vget (vs.set i w) i') rsf =
            Tri.classify_vertex points (vget vs i') rsf := by
      intro w hw i'
      have h := shape_vget_set vs i w hw i'
      have h' : (vget (vs.set i w) i').index = (vget vs i').index ∧
          (vget (vs.set i w) i').prev_index = (vget vs i').prev_index ∧
          (vget (vs.set i w) i').next_index = (vget vs i').next_index := by
        simpa [shape, Prod.ext_iff] using h
      exact ⟨h'.1, classify_shape points rsf _ _ h⟩
    rw [tri_pass2_cons]
    cases hc : Tri.classify_vertex points (vget vs i) rsf
    case Reflex =>
      rw [ih]
      simp only [List.mem_cons]
      constructor
      · rintro (hr | ⟨i', hi', hr⟩)
        · exact Or.inl hr
        · exact Or.inr ⟨i', Or.inr hi', hr⟩
      · rintro (hr | ⟨i', (rfl | hi'), hr⟩)
        · exact Or.inl hr
        · rw [hc] at hr; exact absurd hr.2 (by simp)
        · exact Or.inr ⟨i', hi', hr⟩
    case Convex =>
      rw [ih]
      simp only [List.mem_cons]
      constructor
      · rintro (hr | ⟨i', hi', hr⟩)
        · exact Or.inl hr
        · obtain ⟨h1, h2⟩ := hshape { vget vs i with is_convex := true } (by simp [shape]) i'
          rw [h1, h2] at hr
          exact Or.inr ⟨i', Or.inr hi', hr⟩
      · rintro (hr | ⟨i', (rfl | hi'), hr⟩)
        · exact Or.inl hr
        · rw [hc] at hr; exact absurd hr.2 (by simp)
        · obtain ⟨h1, h2⟩ := hshape { vget vs i with is_convex := true } (by simp [shape]) i'
          exact Or.inr ⟨i', hi', by rw [h1, h2]; exact hr⟩
    case Ear =>
      rw [ih, mem_hs_insert]
      simp only [List.mem_cons]
      constructor
      · rintro ((rfl | hr) | ⟨i', hi', hr⟩)
        · exact Or.inr ⟨i, Or.inl rfl, rfl, hc⟩
        · exact Or.inl hr
        · obtain ⟨h1, h2⟩ := hshape { vget vs i with is_convex := true, is_ear := true } (by simp [shape]) i'
          rw [h1, h2] at hr
          exact Or.inr ⟨i', Or.inr hi', hr⟩
      · rintro (hr | ⟨i', (rfl | hi'), hr⟩)
        · exact Or.inl (Or.inr hr)
        · exact Or.inl (Or.inl hr.1.symm)
        · obtain ⟨h1, h2⟩ := hshape { vget vs i with is_convex := true, is_ear := true } (by simp [shape]) i'
          exact Or.inr ⟨i', hi', by rw [h1, h2]; exact hr⟩

theorem tri_pass2_nodup (points : List (A × A)) (rsf : List Nat) :
    ∀ (idxs : List Nat) (vs : List Vertex) (es : List Nat), es.Nodup →
      (Tri.pass2 points rsf idxs vs es).2.Nodup := by
  intro idxs
  induction idxs with
  | nil => intro vs es h; exact h
  | cons i rest ih =>
    intro vs es h
    rw [tri_pass2_cons]
    cases hc : Tri.classify_vertex points (vget vs i) rsf
    · exact ih vs es h
    · exact ih _ es h
    · exact ih _ _ (nodup_hs_insert _ _ h)

theorem tri_pass2_flag (points : List (A × A)) (rsf : List Nat) :
    ∀ (idxs : List Nat) (vs : List Vertex) (es : List Nat), idxs.Nodup →
      (∀ i ∈ idxs, i < vs.length) →
      ∀ i ∈ idxs, (vget (Tri.pass2 points rsf idxs vs es).1 i).is_ear =
        (if Tri.classify_vertex points (vget vs i) rsf = VertexType.Ear
         then true else (vget vs i).is_ear) := by
  intro idxs
  induction idxs with
  | nil => intro vs es _ _ i hi; exact absurd hi (List.not_mem_nil i)
  | cons i0 rest ih =>
    intro vs es hnd hb i hi
    have hnd0 : i0 ∉ rest := by
      rw [List.nodup_cons] at hnd; exact hnd.1
    have hndr : rest.Nodup := by
      rw [List.nodup_cons] at hnd; exact hnd.2
    have hi0 : i0 < vs.length := hb i0 (List.mem_cons_self i0 rest)
    rw [tri_pass2_cons]
    rcases List.mem_cons.mp hi with rfl | hir
    · cases hc : Tri.classify_vertex points (vget vs i) rsf
      case Reflex =>
        rw [tri_pass2_untouched _ _ _ _ _ _ hnd0]
        simp [hc]
      case Convex =>
        rw [tri_pass2_untouched _ _ _ _ _ _ hnd0, vget_set_self _ _ _ hi0]
        simp [hc]
      case Ear =>
        rw [tri_pass2_untouched _ _ _ _ _ _ hnd0, vget_set_self _ _ _ hi0]
        simp [hc]
    · have hne : i0 ≠ i := fun h => hnd0 (h ▸ hir)
      cases hc : Tri.classify_vertex points (vget vs i0) rsf
      case Reflex =>
        exact ih vs es hndr (fun j hj => hb j (List.mem_cons_of_mem i0 hj)) i hir
      case Convex =>
        rw [ih _ es hndr (by intro j hj; rw [List.length_set]; exact hb j (List.mem_cons_of_mem i0 hj)) i hir,
          vget_set_ne _ _ _ _ hne]
      case Ear =>
        rw [ih _ _ hndr (by intro j hj; rw [List.length_set]; exact hb j (List.mem_cons_of_mem i0 hj)) i hir,
          vget_set_ne _ _ _ _ hne]

theorem vget_oob (vs : List Vertex) (i : Nat) (h : vs.length ≤ i) :
    vget vs i = Vertex.new 0 0 0 := by
  simp [vget, List.getD_eq_getElem?_getD, List.getElem?_eq_none h]

/-- The ear set built by the second pass depends only on the structural parts
of the vertex array (never on its flags). -/
theorem tri_pass2_es_shape_inv (points : List (A × A)) (rsf : List Nat) :
    ∀ (idxs : List Nat) (vs vs' : List Vertex) (es : List Nat),
      (∀ j, shape (vget vs j) = shape (vget vs' j)) →
      (Tri.pass2 points rsf idxs vs es).2 = (Tri.pass2 points rsf idxs vs' es).2 := by
  intro idxs
  induction idxs with
  | nil => intro vs vs' es _; rfl
  | cons i rest ih =>
    intro vs vs' es hsh
    have hcl : Tri.classify_vertex points (vget vs i) rsf =
        Tri.classify_vertex points (vget vs' i) rsf :=
      classify_shape points rsf _ _ (hsh i)
    have hidx : (vget vs i).index = (vget vs' i).index := by
      have := hsh i
      simp [shape, Prod.ext_iff] at this
      exact this.1
    rw [tri_pass2_cons, tri_pass2_cons, ← hcl]
    cases hc : Tri.classify_vertex points (vget vs i) rsf
    · exact ih vs vs' es hsh
    · exact ih _ _ es (fun j => by
        rw [shape_vget_set _ _ _ (by simp [shape]), shape_vget_set _ _ _ (by simp [shape])]
        exact hsh j)
    · rw [hidx]
      exact ih _ _ _ (fun j => by
        rw [shape_vget_set _ _ _ (by simp [shape]), shape_vget_set _ _ _ (by simp [shape])]
        exact hsh j)

/-- `lib.rs`'s `fill_sets` builds the same ear and reflex sets as
`triangulation.rs`'s: the stale flags written by its first pass influence
neither classification. -/
theorem fill_sets_sets_eq (points : List (A × A)) (h4 : 4 ≤ points.length) :
    (Lib.fill_sets points (make_vertex_vec points.length)).2 =
      (Tri.fill_sets points (make_vertex_vec points.length)).2 := by
  have hlen : (make_vertex_vec points.length).length = points.length :=
    length_make_vertex_vec _ (by omega)
  have hb : ∀ i ∈ List.range (make_vertex_vec points.length).length,
      i < (make_vertex_vec points.length).length := by
    intro i hi; exact List.mem_range.mp hi
  have hrs : (Lib.pass1 points (List.range (make_vertex_vec points.length).length)
      (make_vertex_vec points.length) []).2 =
      Tri.pass1 points (make_vertex_vec points.length)
        (List.range (make_vertex_vec points.length).length) [] :=
    lib_pass1_agree points _ _ _ [] (fun _ => rfl) hb
  have hp1 := lib_pass1_shape points
    (List.range (make_vertex_vec points.length).length)
    (make_vertex_vec points.length) [] hb
  have hes : (Lib.pass2 points (List.range (make_vertex_vec points.length).length)
      (Lib.pass1 points (List.range (make_vertex_vec points.length).length)
        (make_vertex_vec points.length) []).1
      (Lib.pass1 points (List.range (make_vertex_vec points.length).length)
        (make_vertex_vec points.length) []).2 []).2 =
      (Tri.pass2 points
        (Tri.pass1 points (make_vertex_vec points.length)
          (List.range (make_vertex_vec points.length).length) [])
        (List.range (make_vertex_vec points.length).length)
        (make_vertex_vec points.length) []).2 := by
    rw [pass2_agree points _ _ _ [] (by intro i hi; rw [hp1.1]; exact hb i hi)]
    rw [tri_pass2_es_shape_inv points _ _ _ (make_vertex_vec points.length) [] hp1.2]
    rw [hrs]
  show ((Lib.pass2 points _ _ _ []).2, (Lib.pass1 points _ _ []).2) = _
  rw [hes, hrs]
  rfl

/-- Unfolding of `Tri.fill_sets` at the argument `triangulate` passes it. -/
theorem tri_fill_sets_decomp (points : List (A × A)) (h2 : 2 ≤ points.length) :
    Tri.fill_sets points (make_vertex_vec points.length) =
      ((Tri.pass2 points
          (Tri.pass1 points (make_vertex_vec points.length) (List.range points.length) [])
          (List.range points.length) (make_vertex_vec points.length) []).1,
       (Tri.pass2 points
          (Tri.pass1 points (make_vertex_vec points.length) (List.range points.length) [])
          (List.range points.length) (make_vertex_vec points.length) []).2,
       Tri.pass1 points (make_vertex_vec points.length) (List.range points.length) []) := by
  unfold Tri.fill_sets
  rw [length_make_vertex_vec _ h2]

/-- Membership in the reflex set built by `fill_sets` (either variant via
`fill_sets_sets_eq`): exactly the non-convex polygon vertices. -/
theorem tri_fill_sets_reflex_mem (points : List (A × A)) (h4 : 4 ≤ points.length)
    (r : Nat) :
    r ∈ (Tri.fill_sets points (make_vertex_vec points.length)).2.2 ↔
      r < points.length ∧
      is_convex (pget points r) (pget points (iprev points.length r))
        (pget points (inext points.length r)) = false := by
  rw [tri_fill_sets_decomp points (by omega)]
  show r ∈ Tri.pass1 points (make_vertex_vec points.length) (List.range points.length) [] ↔ _
  rw [tri_pass1_mem]
  simp only [List.not_mem_nil, false_or, List.mem_range]
  constructor
  · rintro ⟨i, hi, hr, hc⟩
    rw [vget_make_vertex_vec _ (by omega) i hi] at hr hc
    simp [Vertex.new] at hr
    subst hr
    exact ⟨hi, hc⟩
  · rintro ⟨hr, hc⟩
    refine ⟨r, hr, ?_, ?_⟩
    · rw [vget_make_vertex_vec _ (by omega) r hr]
      rfl
    · rw [vget_make_vertex_vec _ (by omega) r hr]
      exact hc

/-- Membership in the ear set built by `fill_sets`: exactly the convex
vertices passing the ear test against the complete reflex set. -/
theorem tri_fill_sets_ear_mem (points : List (A × A)) (h4 : 4 ≤ points.length)
    (i : Nat) :
    i ∈ (Tri.fill_sets points (make_vertex_vec points.length)).2.1 ↔
      i < points.length ∧
      is_convex (pget points i) (pget points (iprev points.length i))
        (pget points (inext points.length i)) = true ∧
      is_ear points (Tri.fill_sets points (make_vertex_vec points.length)).2.2
        (Vertex.new i (iprev points.length i) (inext points.length i)) = true := by
  rw [tri_fill_sets_decomp points (by omega)]
  show i ∈ (Tri.pass2 points
      (Tri.pass1 points (make_vertex_vec points.length) (List.range points.length) [])
      (List.range points.length) (make_vertex_vec points.length) []).2 ↔ _
  rw [tri_pass2_mem]
  simp only [List.not_mem_nil, false_or, List.mem_range]
  constructor
  · rintro ⟨j, hj, hr, hc⟩
    rw [vget_make_vertex_vec _ (by omega) j hj] at hr hc
    rw [classify_ear_iff] at hc
    simp [Vertex.new] at hr
    subst hr
    simp only [Vertex.new] at hc
    exact ⟨hj, hc.1, hc.2⟩
  · rintro ⟨hi, hcv, hear⟩
    refine ⟨i, hi, ?_, ?_⟩
    · rw [vget_make_vertex_vec _ (by omega) i hi]; rfl
    · rw [vget_make_vertex_vec _ (by omega) i hi, classify_ear_iff]
      refine ⟨by simpa [Vertex.new] using hcv, ?_⟩
      exact hear

/-- In the pure variant, a vertex\'s `is_ear` flag after `fill_sets` is set
exactly for the ear-set members. -/
theorem tri_fill_sets_flag (points : List (A × A)) (h4 : 4 ≤ points.length)
    (i : Nat) :
    (vget (Tri.fill_sets points (make_vertex_vec points.length)).1 i).is_ear = true ↔
      i ∈ (Tri.fill_sets points (make_vertex_vec points.length)).2.1 := by
  have hlen : (make_vertex_vec points.length).length = points.length :=
    length_make_vertex_vec _ (by omega)
  rw [tri_fill_sets_ear_mem points h4 i, tri_fill_sets_decomp points (by omega)]
  by_cases hi : i < points.length
  · have hflag := tri_pass2_flag points
      (Tri.pass1 points (make_vertex_vec points.length) (List.range points.length) [])
      (List.range points.length)
      (make_vertex_vec points.length) [] (List.nodup_range points.length)
      (fun j hj => by rw [hlen]; exact List.mem_range.mp hj) i (List.mem_range.mpr hi)
    show (vget (Tri.pass2 points _ _ _ []).1 i).is_ear = true ↔ _
    rw [hflag]
    by_cases hc : Tri.classify_vertex points (vget (make_vertex_vec points.length) i)
        (Tri.pass1 points (make_vertex_vec points.length) (List.range points.length) []) =
        VertexType.Ear
    · rw [if_pos hc]
      rw [vget_make_vertex_vec _ (by omega) i hi, classify_ear_iff] at hc
      simp only [true_iff]
      exact ⟨hi, hc.1, hc.2⟩
    · rw [if_neg hc]
      rw [vget_make_vertex_vec _ (by omega) i hi]
      simp only [Vertex.new, Bool.false_eq_true, false_iff]
      rintro ⟨_, hcv, hear⟩
      apply hc
      rw [vget_make_vertex_vec _ (by omega) i hi, classify_ear_iff]
      exact ⟨hcv, hear⟩
  · have hout : (Tri.pass2 points
        (Tri.pass1 points (make_vertex_vec points.length) (List.range points.length) [])
        (List.range points.length) (make_vertex_vec points.length) []).1.length ≤ i := by
      rw [tri_pass2_len, hlen]
      omega
    show (vget (Tri.pass2 points _ _ _ []).1 i).is_ear = true ↔ _
    rw [vget_oob _ _ hout]
    simp only [Vertex.new, Bool.false_eq_true, false_iff]
    rintro ⟨h1, _, _⟩
    omega

theorem shape_index_eq {v w : Vertex} (h : shape v = shape w) : v.index = w.index := by
  simpa [shape] using congrArg Prod.fst h

theorem shape_prev_eq {v w : Vertex} (h : shape v = shape w) :
    v.prev_index = w.prev_index := by
  simpa [shape] using congrArg (fun p => p.2.1) h

theorem shape_next_eq {v w : Vertex} (h : shape v = shape w) :
    v.next_index = w.next_index := by
  simpa [shape] using congrArg (fun p => p.2.2) h

/-- The ear test spelled out as a quantified statement. -/
theorem is_ear_iff (points : List (A × A)) (rs : List Nat) (v : Vertex) :
    is_ear points rs v = true ↔
      ∀ r ∈ rs, r ≠ v.prev_index → r ≠ v.next_index →
        is_in_triangle (pget points r) (pget points v.prev_index)
          (pget points v.index) (pget points v.next_index) = false := by
  unfold is_ear
  rw [List.all_eq_true]
  constructor
  · intro h r hr h1 h2
    have := h r hr
    rw [if_neg (by tauto)] at this
    simpa using this
  · intro h r hr
    by_cases hc : r = v.prev_index ∨ r = v.next_index
    · rw [if_pos hc]
    · rw [if_neg hc]
      push_neg at hc
      simpa using h r hr hc.1 hc.2

/-- Unfolding of `Lib.fill_sets` at the argument `triangulate` passes it. -/
theorem lib_fill_sets_decomp (points : List (A × A)) (h2 : 2 ≤ points.length) :
    Lib.fill_sets points (make_vertex_vec points.length) =
      ((Lib.pass2 points (List.range points.length)
          (Lib.pass1 points (List.range points.length) (make_vertex_vec points.length) []).1
          (Lib.pass1 points (List.range points.length) (make_vertex_vec points.length) []).2 []).1,
       (Lib.pass2 points (List.range points.length)
          (Lib.pass1 points (List.range points.length) (make_vertex_vec points.length) []).1
          (Lib.pass1 points (List.range points.length) (make_vertex_vec points.length) []).2 []).2,
       (Lib.pass1 points (List.range points.length) (make_vertex_vec points.length) []).2) := by
  unfold Lib.fill_sets
  rw [length_make_vertex_vec _ h2]

/-- In the `lib.rs` variant, every ear-set member's `is_ear` flag is set after
`fill_sets` (the converse fails: pass 1 may leave a stale flag on a vertex
that pass 2 does not put into the ear set). -/
theorem lib_fill_sets_flag_fwd (points : List (A × A)) (h4 : 4 ≤ points.length) :
    ∀ i ∈ (Lib.fill_sets points (make_vertex_vec points.length)).2.1,
      (vget (Lib.fill_sets points (make_vertex_vec points.length)).1 i).is_ear = true := by
  have hlen : (make_vertex_vec points.length).length = points.length :=
    length_make_vertex_vec _ (by omega)
  have hb : ∀ i ∈ List.range points.length, i < (make_vertex_vec points.length).length := by
    intro i hi; rw [hlen]; exact List.mem_range.mp hi
  have hp1 := lib_pass1_shape points (List.range points.length)
    (make_vertex_vec points.length) [] hb
  have hagree := pass2_agree points
    (Lib.pass1 points (List.range points.length) (make_vertex_vec points.length) []).2
    (List.range points.length)
    (Lib.pass1 points (List.range points.length) (make_vertex_vec points.length) []).1 []
    (by intro i hi; rw [hp1.1]; exact hb i hi)
  intro i hi
  rw [lib_fill_sets_decomp points (by omega)] at hi ⊢
  simp only at hi ⊢
  rw [hagree] at hi ⊢
  rw [tri_pass2_mem] at hi
  simp only [List.not_mem_nil, false_or, List.mem_range] at hi
  obtain ⟨j, hj, hidx, hcl⟩ := hi
  have hjshape := hp1.2 j
  have hji : j = i := by
    have : (vget (make_vertex_vec points.length) j).index = i := by
      rw [← shape_index_eq hjshape]
      exact hidx
    rw [vget_make_vertex_vec _ (by omega) j hj] at this
    simpa [Vertex.new] using this
  subst hji
  have hflag := tri_pass2_flag points
    (Lib.pass1 points (List.range points.length) (make_vertex_vec points.length) []).2
    (List.range points.length)
    (Lib.pass1 points (List.range points.length) (make_vertex_vec points.length) []).1
    [] (List.nodup_range points.length)
    (by intro j' hj'; rw [hp1.1, hlen]; exact List.mem_range.mp hj')
    j (List.mem_range.mpr hj)
  rw [hflag, if_pos hcl]

/-- `pick_head` is an admissible model of `HashSet::iter().next()`. -/
theorem pick_head_ok : PickOk pick_head := by
  constructor
  · intro s i h
    cases s with
    | nil => simp [pick_head] at h
    | cons x xs => simp [pick_head] at h; simp [h]
  · intro s
    cases s with
    | nil => simp [pick_head]
    | cons x xs => simp [pick_head]

/-- The fold computing the minimum of a list starting from `x` yields `x` or a
member of the list. -/
theorem foldl_min_mem (xs : List Nat) : ∀ x : Nat,
    xs.foldl Nat.min x = x ∨ xs.foldl Nat.min x ∈ xs := by
  induction xs with
  | nil => intro x; left; rfl
  | cons y ys ih =>
    intro x
    rcases ih (Nat.min x y) with h | h
    · rw [List.foldl_cons, h]
      rcases Nat.le_total x y with h1 | h1
      · left; exact Nat.min_eq_left h1
      · right; simp [Nat.min_eq_right h1]
    · right; simp [List.foldl_cons, h]

/-- `pick_min` is an admissible model of `HashSet::iter().next()`. -/
theorem pick_min_ok : PickOk pick_min := by
  constructor
  · intro s i h
    cases s with
    | nil => simp [pick_min] at h
    | cons x xs =>
      simp [pick_min] at h
      rcases foldl_min_mem xs x with h1 | h1 <;> simp [← h, h1]
  · intro s
    cases s with
    | nil => simp [pick_min]
    | cons x xs => simp [pick_min]

variable {A : Type} [LinearOrderedRing A]

/-- From any state with loop counter at least 4, the main loop returns a value
before the counter is exhausted: every iteration either returns or clips
exactly one vertex and continues with the counter decremented by one. -/
theorem tri_loop_isSome_of_four_le (points : List (A × A))
    (pick : List Nat → Option Nat) :
    ∀ n, 4 ≤ n → ∀ vs es rs tris, (tri_loop points pick n vs es rs tris).isSome := by
  intro n
  induction n with
  | zero => intro h; omega
  | succ m ih =>
    intro h vs es rs tris
    rw [tri_loop]
    cases hp : pick es with
    | none => simp
    | some e =>
      simp only
      by_cases hm : m = 3
      · subst hm
        simp only [if_true]
        cases hp2 : pick (hs_remove es e) <;> simp
      · have h4 : 4 ≤ m := by omega
        simp only [hm, if_false]
        exact ih h4 _ _ _ _

/-- With an admissible `pick`, an empty ear set while the counter exceeds 3
makes the loop return the ear-set-empty error immediately. -/
theorem tri_loop_empty_ear (points : List (A × A))
    (pick : List Nat → Option Nat) (hpick : PickOk pick)
    (n : Nat) (vs : List Vertex) (rs tris : List Nat) (hn : 3 < n) :
    tri_loop points pick n vs [] rs tris = some (Except.error errNoEar) := by
  obtain ⟨m, rfl⟩ : ∃ m, n = m + 1 := ⟨n - 1, by omega⟩
  rw [tri_loop, (hpick.2 []).mpr rfl]

/-- The cyclic successor of a position in a list of surviving indices. -/
def cyc (L : List Nat) (k : Fin L.length) : Fin L.length :=
  ⟨(k.1 + 1) % L.length, Nat.mod_lt _ k.pos⟩

/-- The circular doubly-linked-list invariant: reading the surviving vertex
indices in the order of `L`, each record's `next_index` is the cyclically
following entry and that entry's `prev_index` points back. -/
def CycInv (vs : List Vertex) (L : List Nat) : Prop :=
  (∀ i ∈ L, i < vs.length) ∧
  ∀ k : Fin L.length,
    (vget vs (L.get k)).next_index = L.get (cyc L k) ∧
    (vget vs (L.get (cyc L k))).prev_index = L.get k

theorem cyc_inv_make (n : Nat) (h : 2 ≤ n) :
    CycInv (make_vertex_vec n) (List.range n) := by
  constructor
  · intro i hi
    rw [length_make_vertex_vec n h]
    exact List.mem_range.mp hi
  · intro k
    have hk : k.1 < n :=
      Nat.lt_of_lt_of_le k.2 (List.length_range n).le
    have hk1 : (k.1 + 1) % n < n := Nat.mod_lt _ (by omega)
    have hg1 : (List.range n).get k = k.1 := by
      simp [List.get_eq_getElem, List.getElem_range]
    have hg2 : (List.range n).get (cyc (List.range n) k) = (k.1 + 1) % n := by
      simp [List.get_eq_getElem, List.getElem_range, cyc, List.length_range]
    rw [hg1, hg2, vget_make_vertex_vec n h k.1 hk, vget_make_vertex_vec n h _ hk1]
    refine ⟨?_, ?_⟩
    · show inext n k.1 = (k.1 + 1) % n
      unfold inext
      by_cases he : k.1 = n - 1
      · rw [if_pos he, he, Nat.sub_add_cancel (by omega), Nat.mod_self]
      · rw [if_neg he, Nat.mod_eq_of_lt (by omega)]
    · show iprev n ((k.1 + 1) % n) = k.1
      unfold iprev
      by_cases he : (k.1 + 1) % n = 0
      · rw [if_pos he]
        have hkn : k.1 + 1 = n := by
          by_contra hne
          have hlt : k.1 + 1 < n := by omega
          rw [Nat.mod_eq_of_lt hlt] at he
          omega
        omega
      · rw [if_neg he]
        have hlt : k.1 + 1 < n := by
          by_contra hge
          have hkn : k.1 + 1 = n := by omega
          rw [hkn, Nat.mod_self] at he
          exact he rfl
        rw [Nat.mod_eq_of_lt hlt]
        omega

theorem cyc_inv_shape_invariant (vs vs' : List Vertex) (L : List Nat)
    (hsh : ∀ j, shape (vget vs j) = shape (vget vs' j))
    (hlen : vs.length = vs'.length) (h : CycInv vs L) : CycInv vs' L := by
  obtain ⟨hb, hadj⟩ := h
  constructor
  · intro i hi
    rw [← hlen]
    exact hb i hi
  · intro k
    obtain ⟨h1, h2⟩ := hadj k
    exact ⟨by rw [← shape_next_eq (hsh (L.get k))]; exact h1,
      by rw [← shape_prev_eq (hsh (L.get (cyc L k)))]; exact h2⟩

theorem cyc_inv_rotate (vs : List Vertex) (L : List Nat) (m : Nat)
    (h : CycInv vs L) : CycInv vs (L.rotate m) := by
  obtain ⟨hb, hadj⟩ := h
  constructor
  · intro i hi
    exact hb i (List.mem_rotate.mp hi)
  · intro k
    have hpos : 0 < L.length :=
      Nat.lt_of_lt_of_le k.pos (List.length_rotate L m).le
    have hk : k.1 < L.length :=
      Nat.lt_of_lt_of_le k.2 (List.length_rotate L m).le
    have hget : ∀ (j : Fin (L.rotate m).length),
        (L.rotate m).get j = L.get ⟨(j.1 + m) % L.length, Nat.mod_lt _ hpos⟩ := by
      intro j
      rw [List.get_rotate]
    have hmod1 : ((k.1 + 1) % (L.rotate m).length + m) % L.length =
        ((k.1 + m) % L.length + 1) % L.length := by
      simp only [List.length_rotate]
      rw [Nat.mod_add_mod, Nat.mod_add_mod]
      congr 1
      omega
    have hcyc : (L.rotate m).get (cyc (L.rotate m) k) =
        L.get (cyc L ⟨(k.1 + m) % L.length, Nat.mod_lt _ hpos⟩) := by
      rw [hget]
      congr 1
      apply Fin.ext
      show ((k.1 + 1) % (L.rotate m).length + m) % L.length = _
      rw [hmod1]
      rfl
    obtain ⟨h1, h2⟩ := hadj ⟨(k.1 + m) % L.length, Nat.mod_lt _ hpos⟩
    constructor
    · rw [hget k, hcyc]
      exact h1
    · rw [hget k, hcyc]
      exact h2

theorem exists_rotate_cons (L : List Nat) (e : Nat) (he : e ∈ L) :
    ∃ tl, L.rotate (L.indexOf e) = e :: tl := by
  have hlt : L.indexOf e < L.length := List.indexOf_lt_length.mpr he
  have hlen : (L.rotate (L.indexOf e)).length = L.length := List.length_rotate _ _
  have hne : L.rotate (L.indexOf e) ≠ [] := by
    intro h0
    rw [h0] at hlen
    simp at hlen
    omega
  have hpos : 0 < (L.rotate (L.indexOf e)).length := List.length_pos.mpr hne
  have hhead : (L.rotate (L.indexOf e)).get ⟨0, hpos⟩ = e := by
    rw [List.get_rotate]
    have : (0 + L.indexOf e) % L.length = L.indexOf e := by
      rw [Nat.zero_add, Nat.mod_eq_of_lt hlt]
    rw [show (⟨(0 + L.indexOf e) % L.length, Nat.mod_lt _ (by omega)⟩ : Fin L.length) =
        ⟨L.indexOf e, hlt⟩ from Fin.ext this]
    exact List.indexOf_get hlt
  obtain ⟨x, tl2, hx⟩ : ∃ x tl2, L.rotate (L.indexOf e) = x :: tl2 := by
    cases hr : L.rotate (L.indexOf e) with
    | nil => exact absurd hr hne
    | cons a b => exact ⟨a, b, rfl⟩
  have h2 : (L.rotate (L.indexOf e))[0]? = some x := by
    rw [hx]
    simp
  have h1 : (L.rotate (L.indexOf e))[0]? = some e := by
    have hh := hhead
    rw [List.get_eq_getElem] at hh
    rw [List.getElem?_eq_getElem hpos, hh]
  rw [h1] at h2
  have hxe : x = e := (Option.some.inj h2).symm
  subst hxe
  exact ⟨tl2, hx⟩

theorem get_cons_succ_nat (e : Nat) (tl : List Nat) (j : Nat) (h : j < tl.length)
    (h2 : j + 1 < (e :: tl).length) :
    (e :: tl).get ⟨j + 1, h2⟩ = tl.get ⟨j, h⟩ := rfl

/-- In a circular list `e :: tl` with at least two surviving vertices, `e`'s
links point at the head and last entries of `tl`. -/
theorem cyc_inv_head_fields (vs : List Vertex) (e : Nat) (tl : List Nat)
    (hInv : CycInv vs (e :: tl)) (hpos : 0 < tl.length) :
    (vget vs e).next_index = tl.get ⟨0, hpos⟩ ∧
    (vget vs e).prev_index = tl.get ⟨tl.length - 1, by omega⟩ := by
  obtain ⟨_, hadj⟩ := hInv
  constructor
  · have h0 := (hadj ⟨0, by simp⟩).1
    have hc : cyc (e :: tl) ⟨0, by simp⟩ = ⟨1, by simp; omega⟩ := by
      apply Fin.ext
      show (0 + 1) % (tl.length + 1) = 1
      rw [Nat.mod_eq_of_lt (by omega)]
    rw [hc] at h0
    exact h0
  · have hl := (hadj ⟨tl.length, by simp⟩).2
    have hc : cyc (e :: tl) ⟨tl.length, by simp⟩ = ⟨0, by simp⟩ := by
      apply Fin.ext
      show (tl.length + 1) % (tl.length + 1) = 0
      exact Nat.mod_self _
    rw [hc] at hl
    have hgoal : (e :: tl).get ⟨tl.length, by simp⟩ =
        tl.get ⟨tl.length - 1, by omega⟩ := by
      obtain ⟨m, hm⟩ : ∃ m, tl.length = m + 1 := ⟨tl.length - 1, by omega⟩
      have h1 : (e :: tl)[tl.length]? = tl[tl.length - 1]? := by
        rw [hm]
        simp
      have h2 : (e :: tl)[tl.length]? =
          some ((e :: tl).get ⟨tl.length, by simp⟩) := by
        rw [List.getElem?_eq_getElem (by simp)]
        simp [List.get_eq_getElem]
      have h3 : tl[tl.length - 1]? =
          some (tl.get ⟨tl.length - 1, by omega⟩) := by
        rw [List.getElem?_eq_getElem (by omega)]
        simp [List.get_eq_getElem]
      rw [h2, h3] at h1
      exact Option.some.inj h1
    rw [← hgoal]
    exact hl

theorem length_remove_vertex (vs : List Vertex) (e : Nat) :
    (remove_vertex vs e).length = vs.length := by
  unfold remove_vertex
  simp [List.length_set]

theorem vget_remove_vertex (vs : List Vertex) (e p q : Nat)
    (hp : (vget vs e).prev_index = p) (hq : (vget vs e).next_index = q)
    (hpq : p ≠ q) (hpl : p < vs.length) (hql : q < vs.length) (j : Nat) :
    vget (remove_vertex vs e) j =
      if j = q then { vget vs q with prev_index := p }
      else if j = p then { vget vs p with next_index := q }
      else vget vs j := by
  unfold remove_vertex
  rw [hp, hq]
  have hq1 : vget (vs.set p { vget vs p with next_index := q }) q = vget vs q :=
    vget_set_ne _ _ _ _ hpq
  by_cases hjq : j = q
  · subst hjq
    rw [if_pos rfl, vget_set_self _ _ _ (by rw [List.length_set]; exact hql), hq1]
  · rw [if_neg hjq, vget_set_ne _ _ _ _ (fun h => hjq h.symm)]
    by_cases hjp : j = p
    · subst hjp
      rw [if_pos rfl, vget_set_self _ _ _ hpl]
    · rw [if_neg hjp, vget_set_ne _ _ _ _ (fun h => hjp h.symm)]

/-- Clipping the head of the circular order: after `remove_vertex`, the
remaining indices `tl` again satisfy the invariant. -/
theorem cyc_inv_splice (vs : List Vertex) (e : Nat) (tl : List Nat)
    (hInv : CycInv vs (e :: tl)) (hnd : (e :: tl).Nodup) (h2 : 2 ≤ tl.length) :
    CycInv (remove_vertex vs e) tl := by
  have hpos : 0 < tl.length := by omega
  obtain ⟨hnext, hprev⟩ := cyc_inv_head_fields vs e tl hInv hpos
  obtain ⟨hb, hadj⟩ := hInv
  have hndtl : tl.Nodup := (List.nodup_cons.mp hnd).2
  have hetl : e ∉ tl := (List.nodup_cons.mp hnd).1
  have hpq : tl.get ⟨tl.length - 1, by omega⟩ ≠ tl.get ⟨0, hpos⟩ := by
    intro h
    have := (List.Nodup.get_inj_iff hndtl).mp h
    have h1 : tl.length - 1 = 0 := congrArg Fin.val this
    omega
  have hpl : tl.get ⟨tl.length - 1, by omega⟩ < vs.length :=
    hb _ (List.mem_cons_of_mem e (tl.get_mem _ _))
  have hql : tl.get ⟨0, hpos⟩ < vs.length :=
    hb _ (List.mem_cons_of_mem e (tl.get_mem _ _))
  have hrm := vget_remove_vertex vs e _ _ hprev hnext hpq hpl hql
  constructor
  · intro i hi
    rw [length_remove_vertex]
    exact hb i (List.mem_cons_of_mem e hi)
  · intro k
    have hkm : k.1 < tl.length := k.2
    by_cases hlast : k.1 = tl.length - 1
    · -- wrap-around position: the spliced link
      have hkeq : tl.get k = tl.get ⟨tl.length - 1, by omega⟩ := by
        congr 1
        exact Fin.ext hlast
      have hcyck : cyc tl k = ⟨0, hpos⟩ := by
        apply Fin.ext
        show (k.1 + 1) % tl.length = 0
        rw [hlast, Nat.sub_add_cancel (by omega), Nat.mod_self]
      constructor
      · rw [hkeq, hcyck, hrm]
        rw [if_neg hpq, if_pos rfl]
      · rw [hkeq, hcyck, hrm]
        rw [if_pos rfl]
    · have hk1 : k.1 + 1 < tl.length := by omega
      have hcyck : cyc tl k = ⟨k.1 + 1, hk1⟩ := by
        apply Fin.ext
        show (k.1 + 1) % tl.length = k.1 + 1
        exact Nat.mod_eq_of_lt hk1
      have hklt : k.1 + 1 < (e :: tl).length := by
        simp only [List.length_cons]
        omega
      have ha := hadj ⟨k.1 + 1, hklt⟩
      have hgk : (e :: tl).get ⟨k.1 + 1, hklt⟩ = tl.get ⟨k.1, hkm⟩ := rfl
      have hcycL : cyc (e :: tl) ⟨k.1 + 1, hklt⟩ =
          ⟨k.1 + 2, by simp only [List.length_cons]; omega⟩ := by
        apply Fin.ext
        show (k.1 + 1 + 1) % (tl.length + 1) = k.1 + 2
        exact Nat.mod_eq_of_lt (by omega)
      have hgk2 : (e :: tl).get ⟨k.1 + 2, by simp only [List.length_cons]; omega⟩ =
          tl.get ⟨k.1 + 1, hk1⟩ := rfl
      have ha1 : (vget vs (tl.get ⟨k.1, hkm⟩)).next_index = tl.get ⟨k.1 + 1, hk1⟩ := by
        have := ha.1
        rw [hgk, hcycL, hgk2] at this
        exact this
      have ha2 : (vget vs (tl.get ⟨k.1 + 1, hk1⟩)).prev_index = tl.get ⟨k.1, hkm⟩ := by
        have := ha.2
        rw [hgk, hcycL, hgk2] at this
        exact this
      have hknotp : tl.get ⟨k.1, hkm⟩ ≠ tl.get ⟨tl.length - 1, by omega⟩ := by
        intro h
        have := (List.Nodup.get_inj_iff hndtl).mp h
        have hv : k.1 = tl.length - 1 := congrArg Fin.val this
        exact hlast hv
      have hk1notq : tl.get ⟨k.1 + 1, hk1⟩ ≠ tl.get ⟨0, hpos⟩ := by
        intro h
        have := (List.Nodup.get_inj_iff hndtl).mp h
        have hv : k.1 + 1 = 0 := congrArg Fin.val this
        omega
      have hkfin : (⟨k.1, hkm⟩ : Fin tl.length) = k := Fin.ext rfl
      constructor
      · have hfield : (vget (remove_vertex vs e) (tl.get ⟨k.1, hkm⟩)).next_index =
            (vget vs (tl.get ⟨k.1, hkm⟩)).next_index := by
          rw [hrm]
          by_cases h1 : tl.get ⟨k.1, hkm⟩ = tl.get ⟨0, hpos⟩
          · rw [if_pos h1, h1]
          · rw [if_neg h1, if_neg hknotp]
        rw [← hkfin, hcyck, hfield, ha1]
      · have hfield : (vget (remove_vertex vs e) (tl.get ⟨k.1 + 1, hk1⟩)).prev_index =
            (vget vs (tl.get ⟨k.1 + 1, hk1⟩)).prev_index := by
          rw [hrm]
          by_cases h1 : tl.get ⟨k.1 + 1, hk1⟩ = tl.get ⟨tl.length - 1, by omega⟩
          · rw [if_neg hk1notq, if_pos h1, h1]
          · rw [if_neg hk1notq, if_neg h1]
        rw [← hkfin, hcyck, hfield, ha2]

/-- The neighbour re-classification after a clip only toggles flags, shrinks
or grows the ear set by the re-examined index, and keeps the vertex array's
length and structure. -/
theorem update_neighbor_spec (points : List (A × A)) (vs : List Vertex)
    (es rs : List Nat) (j : Nat) :
    ((update_neighbor points (vs, es, rs) j).1.length = vs.length) ∧
    (∀ i, shape (vget (update_neighbor points (vs, es, rs) j).1 i) =
      shape (vget vs i)) ∧
    (∀ x ∈ (update_neighbor points (vs, es, rs) j).2.1, x = j ∨ x ∈ es) ∧
    (es.Nodup → (update_neighbor points (vs, es, rs) j).2.1.Nodup) := by
  unfold update_neighbor
  by_cases h1 : (vget vs j).is_ear
  · by_cases h2 : is_ear points rs (vget vs j)
    · simp only [h1, h2, Bool.not_true, if_true, if_false, Bool.false_eq_true]
      exact ⟨by simp, by simp, fun x hx => Or.inr hx, fun h => h⟩
    · simp only [h1, h2, Bool.not_false, if_true, Bool.false_eq_true, if_false]
      refine ⟨List.length_set vs j _, ?_, ?_, ?_⟩
      · intro i
        exact shape_vget_set vs j _ (by simp [shape]) i
      · intro x hx
        exact Or.inr (List.erase_subset _ _ hx)
      · intro h
        exact nodup_hs_remove es j h
  · by_cases h3 : is_convex (pget points j) (pget points (vget vs j).prev_index)
        (pget points (vget vs j).next_index)
    · by_cases h4 : (vget vs j).is_convex
      · simp only [h1, h3, h4, Bool.not_true, Bool.false_eq_true, if_false, if_true]
        by_cases h5 : is_ear points rs (vget vs j)
        · simp only [h5, if_true]
          refine ⟨by simp, by simp, ?_, ?_⟩
          · intro x hx
            exact (mem_hs_insert es j x).mp hx
          · intro h
            exact nodup_hs_insert es j h
        · simp only [h5, Bool.false_eq_true, if_false]
          exact ⟨by simp, by simp, fun x hx => Or.inr hx, fun h => h⟩
      · have h4b : (vget vs j).is_convex = false := by
          simp only [Bool.not_eq_true] at h4
          exact h4
        simp only [h1, h3, h4b, Bool.not_false, Bool.false_eq_true, if_false, if_true]
        split_ifs with h5
        · refine ⟨List.length_set vs j _, ?_, ?_, ?_⟩
          · intro i
            exact shape_vget_set vs j _ (by simp [shape]) i
          · intro x hx
            exact (mem_hs_insert es j x).mp hx
          · intro h
            exact nodup_hs_insert es j h
        · refine ⟨List.length_set vs j _, ?_, ?_, ?_⟩
          · intro i
            exact shape_vget_set vs j _ (by simp [shape]) i
          · intro x hx
            exact Or.inr hx
          · intro h
            exact h
    · simp only [h1, h3, Bool.false_eq_true, if_false]
      exact ⟨by simp, by simp, fun x hx => Or.inr hx, fun h => h⟩

/-- The central invariant argument for claim C1: if the main loop, entered
with its counter equal to the number of surviving vertices (listed in cyclic
order in the ghost list `L`), returns `Ok`, then it appends one triple per
clip plus the final triangle -- `3 * (|L| - 2)` indices, all of them
surviving-vertex indices (hence below N), and every survivor appears. -/
theorem tri_loop_ok_spec (points : List (A × A)) (pick : List Nat → Option Nat)
    (hpick : ∀ s i, pick s = some i → i ∈ s) (N : Nat) :
    ∀ (fuel : Nat) (L : List Nat) (vs : List Vertex) (es rs tris t : List Nat),
      fuel = L.length → 4 ≤ L.length → vs.length = N →
      L.Nodup → (∀ i ∈ L, i < N) →
      CycInv vs L → (∀ i ∈ es, i ∈ L) → es.Nodup →
      tri_loop points pick fuel vs es rs tris = some (Except.ok t) →
      ∃ rest, t = tris ++ rest ∧ (∀ i ∈ rest, i < N) ∧ (∀ j ∈ L, j ∈ rest) ∧
        rest.length = 3 * (L.length - 2) := by
  intro fuel
  induction fuel with
  | zero =>
    intro L vs es rs tris t hfuel hL4 _ _ _ _ _ _ _
    omega
  | succ m ih =>
    intro L vs es rs tris t hfuel hL4 hvsN hnd hbound hInv hessub hesnd h
    rw [tri_loop] at h
    cases hp : pick es with
    | none =>
      rw [hp] at h
      simp at h
    | some e =>
      rw [hp] at h
      simp only [] at h
      have heL : e ∈ L := hessub e (hpick es e hp)
      obtain ⟨tl, hrot⟩ := exists_rotate_cons L e heL
      have htl_len : tl.length + 1 = L.length := by
        have h0 := List.length_rotate L (L.indexOf e)
        rw [hrot] at h0
        simpa using h0
      have hInvR : CycInv vs (e :: tl) := by
        rw [← hrot]
        exact cyc_inv_rotate vs L _ hInv
      have hndR : (e :: tl).Nodup := by
        rw [← hrot]
        exact List.nodup_rotate.mpr hnd
      have hmemR : ∀ x, x ∈ e :: tl ↔ x ∈ L := by
        intro x
        rw [← hrot]
        exact List.mem_rotate
      have htlpos : 0 < tl.length := by omega
      obtain ⟨hqv, hpv⟩ := cyc_inv_head_fields vs e tl hInvR htlpos
      have hInv1 : CycInv (remove_vertex vs e) tl :=
        cyc_inv_splice vs e tl hInvR hndR (by omega)
      have hndtl : tl.Nodup := (List.nodup_cons.mp hndR).2
      have hetl : e ∉ tl := (List.nodup_cons.mp hndR).1
      have htlsub : ∀ i ∈ tl, i ∈ L := fun i hi =>
        (hmemR i).mp (List.mem_cons_of_mem e hi)
      have hboundtl : ∀ i ∈ tl, i < N := fun i hi => hbound i (htlsub i hi)
      have hlen1 : (remove_vertex vs e).length = N := by
        rw [length_remove_vertex]
        exact hvsN
      have hp_mem : (vget vs e).prev_index ∈ tl := by
        rw [hpv]
        exact tl.get_mem _ _
      have hq_mem : (vget vs e).next_index ∈ tl := by
        rw [hqv]
        exact tl.get_mem _ _
      have heN : e < N := hbound e heL
      by_cases hm3 : m = 3
      · rw [if_pos hm3] at h
        cases hp2 : pick (hs_remove es e) with
        | none =>
          rw [hp2] at h
          simp at h
        | some e2 =>
          rw [hp2] at h
          simp only [Option.some.injEq, Except.ok.injEq] at h
          have he2 : e2 ∈ hs_remove es e := hpick _ _ hp2
          have he2' : e2 ≠ e ∧ e2 ∈ es := (mem_hs_remove es hesnd e e2).mp he2
          have he2tl : e2 ∈ tl := by
            have hx : e2 ∈ e :: tl := (hmemR e2).mpr (hessub e2 he2'.2)
            rcases List.mem_cons.mp hx with hx1 | hx2
            · exact absurd hx1 he2'.1
            · exact hx2
          obtain ⟨tl2, hrot2⟩ := exists_rotate_cons tl e2 he2tl
          have htl2_len : tl2.length + 1 = tl.length := by
            have h0 := List.length_rotate tl (tl.indexOf e2)
            rw [hrot2] at h0
            simpa using h0
          have hInv2 : CycInv (remove_vertex vs e) (e2 :: tl2) := by
            rw [← hrot2]
            exact cyc_inv_rotate _ tl _ hInv1
          have hmem2 : ∀ x, x ∈ e2 :: tl2 ↔ x ∈ tl := by
            intro x
            rw [← hrot2]
            exact List.mem_rotate
          have htl2pos : 0 < tl2.length := by omega
          obtain ⟨hq2v, hp2v⟩ := cyc_inv_head_fields _ e2 tl2 hInv2 htl2pos
          have hp2_mem : (vget (remove_vertex vs e) e2).prev_index ∈ tl := by
            rw [hp2v]
            exact (hmem2 _).mp (List.mem_cons_of_mem e2 (tl2.get_mem _ _))
          have hq2_mem : (vget (remove_vertex vs e) e2).next_index ∈ tl := by
            rw [hq2v]
            exact (hmem2 _).mp (List.mem_cons_of_mem e2 (tl2.get_mem _ _))
          refine ⟨[(vget vs e).prev_index, e, (vget vs e).next_index,
            (vget (remove_vertex vs e) e2).prev_index, e2,
            (vget (remove_vertex vs e) e2).next_index], ?_, ?_, ?_, ?_⟩
          · rw [← h]
            unfold push_triangle
            simp
          · intro i hi
            simp only [List.mem_cons, List.not_mem_nil, or_false] at hi
            rcases hi with rfl | rfl | rfl | rfl | rfl | rfl
            · exact hboundtl _ hp_mem
            · exact heN
            · exact hboundtl _ hq_mem
            · exact hboundtl _ hp2_mem
            · exact hboundtl _ he2tl
            · exact hboundtl _ hq2_mem
          · intro j hj
            have hj2 : j ∈ e :: tl := (hmemR j).mpr hj
            simp only [List.mem_cons, List.not_mem_nil, or_false]
            rcases List.mem_cons.mp hj2 with rfl | hjtl
            · exact Or.inr (Or.inl rfl)
            · rcases List.mem_cons.mp ((hmem2 j).mpr hjtl) with rfl | hjtl2
              · exact Or.inr (Or.inr (Or.inr (Or.inr (Or.inl rfl))))
              · obtain ⟨k, hk⟩ := List.mem_iff_get.mp hjtl2
                have hk01 : k.1 = 0 ∨ k.1 = 1 := by
                  have := k.2
                  omega
                rcases hk01 with hk0 | hk1
                · have : tl2.get ⟨0, htl2pos⟩ = j := by
                    rw [← hk]
                    congr 1
                    exact Fin.ext hk0.symm
                  rw [← this, ← hq2v]
                  exact Or.inr (Or.inr (Or.inr (Or.inr (Or.inr rfl))))
                · have : tl2.get ⟨tl2.length - 1, by omega⟩ = j := by
                    rw [← hk]
                    congr 1
                    apply Fin.ext
                    show tl2.length - 1 = k.1
                    omega
                  rw [← this, ← hp2v]
                  exact Or.inr (Or.inr (Or.inr (Or.inl rfl)))
          · simp
            omega
      · rw [if_neg hm3] at h
        have hm4 : 4 ≤ m := by omega
        have hu1 := update_neighbor_spec points (remove_vertex vs e)
          (hs_remove es e) rs (vget vs e).prev_index
        have hu2 := update_neighbor_spec points
          (update_neighbor points (remove_vertex vs e, hs_remove es e, rs)
            (vget vs e).prev_index).1
          (update_neighbor points (remove_vertex vs e, hs_remove es e, rs)
            (vget vs e).prev_index).2.1
          (update_neighbor points (remove_vertex vs e, hs_remove es e, rs)
            (vget vs e).prev_index).2.2
          (vget vs e).next_index
        have hInvA : CycInv (update_neighbor points
            (remove_vertex vs e, hs_remove es e, rs) (vget vs e).prev_index).1 tl :=
          cyc_inv_shape_invariant _ _ tl (fun j => (hu1.2.1 j).symm) hu1.1.symm hInv1
        have hInvB : CycInv (update_neighbor points
            (update_neighbor points (remove_vertex vs e, hs_remove es e, rs)
              (vget vs e).prev_index) (vget vs e).next_index).1 tl :=
          cyc_inv_shape_invariant _ _ tl (fun j => (hu2.2.1 j).symm) hu2.1.symm hInvA
        obtain ⟨rest, hrest1, hrest2, hrest3, hrest4⟩ :=
          ih tl
            (update_neighbor points
              (update_neighbor points (remove_vertex vs e, hs_remove es e, rs)
                (vget vs e).prev_index) (vget vs e).next_index).1
            (update_neighbor points
              (update_neighbor points (remove_vertex vs e, hs_remove es e, rs)
                (vget vs e).prev_index) (vget vs e).next_index).2.1
            (update_neighbor points
              (update_neighbor points (remove_vertex vs e, hs_remove es e, rs)
                (vget vs e).prev_index) (vget vs e).next_index).2.2
            (push_triangle tris e (vget vs e).prev_index (vget vs e).next_index) t
            (by omega) (by omega)
            (by rw [hu2.1, hu1.1, length_remove_vertex]; exact hvsN)
            hndtl hboundtl
            hInvB
            (by
              intro x hx
              rcases hu2.2.2.1 x hx with rfl | hx1
              · exact hq_mem
              · rcases hu1.2.2.1 x hx1 with rfl | hx2
                · exact hp_mem
                · have hx3 := (mem_hs_remove es hesnd e x).mp hx2
                  have hx4 : x ∈ e :: tl := (hmemR x).mpr (hessub x hx3.2)
                  rcases List.mem_cons.mp hx4 with rfl | hx5
                  · exact absurd rfl hx3.1
                  · exact hx5)
            (hu2.2.2.2 (hu1.2.2.2 (nodup_hs_remove es e hesnd)))
            h
        refine ⟨[(vget vs e).prev_index, e, (vget vs e).next_index] ++ rest,
          ?_, ?_, ?_, ?_⟩
        · rw [hrest1]
          unfold push_triangle
          simp
        · intro i hi
          rcases List.mem_append.mp hi with hi1 | hi2
          · simp only [List.mem_cons, List.not_mem_nil, or_false] at hi1
            rcases hi1 with rfl | rfl | rfl
            · exact hboundtl _ hp_mem
            · exact heN
            · exact hboundtl _ hq_mem
          · exact hrest2 i hi2
        · intro j hj
          rcases List.mem_cons.mp ((hmemR j).mpr hj) with rfl | hjtl
          · exact List.mem_append.mpr (Or.inl (by simp))
          · exact List.mem_append.mpr (Or.inr (hrest3 j hjtl))
        · simp only [List.length_append, List.length_cons, List.length_nil, hrest4]
          omega

/-- The vertex array built by the pure variant's `fill_sets` keeps the length
of the input array. -/
theorem tri_fill_fst_len (points : List (A × A)) (h2 : 2 ≤ points.length) :
    (Tri.fill_sets points (make_vertex_vec points.length)).1.length =
      points.length := by
  rw [tri_fill_sets_decomp points h2]
  exact (tri_pass2_len points _ _ _ _).trans (length_make_vertex_vec _ h2)

/-- The pure variant's `fill_sets` mutates only flags: every record's
structural part is that of the freshly built vertex array. -/
theorem tri_fill_fst_shape (points : List (A × A)) (h2 : 2 ≤ points.length)
    (j : Nat) :
    shape (vget (Tri.fill_sets points (make_vertex_vec points.length)).1 j) =
      shape (vget (make_vertex_vec points.length) j) := by
  rw [tri_fill_sets_decomp points h2]
  exact tri_pass2_shape points _ _ _ _ j

/-- The ear set built by the pure variant's `fill_sets` is duplicate-free. -/
theorem tri_fill_es_nodup (points : List (A × A)) (h2 : 2 ≤ points.length) :
    (Tri.fill_sets points (make_vertex_vec points.length)).2.1.Nodup := by
  rw [tri_fill_sets_decomp points h2]
  exact tri_pass2_nodup points _ _ _ [] List.nodup_nil

/-- Every member of the ear set built by `fill_sets` is a polygon index. -/
theorem tri_fill_es_bound (points : List (A × A)) (h4 : 4 ≤ points.length) :
    ∀ i ∈ (Tri.fill_sets points (make_vertex_vec points.length)).2.1,
      i < points.length :=
  fun i hi => ((tri_fill_sets_ear_mem points h4 i).mp hi).1

/-- The two variants build the same ear set (first component of the pair of
sets compared by `fill_sets_sets_eq`). -/
theorem lib_fill_es_eq (points : List (A × A)) (h4 : 4 ≤ points.length) :
    (Lib.fill_sets points (make_vertex_vec points.length)).2.1 =
      (Tri.fill_sets points (make_vertex_vec points.length)).2.1 :=
  congrArg Prod.fst (fill_sets_sets_eq points h4)

/-- The vertex array built by `lib.rs`'s `fill_sets` keeps the length of the
input array. -/
theorem lib_fill_fst_len (points : List (A × A)) (h2 : 2 ≤ points.length) :
    (Lib.fill_sets points (make_vertex_vec points.length)).1.length =
      points.length := by
  have hlen := length_make_vertex_vec points.length h2
  have hb : ∀ i ∈ List.range points.length,
      i < (make_vertex_vec points.length).length := by
    intro i hi; rw [hlen]; exact List.mem_range.mp hi
  have hp1 := lib_pass1_shape points (List.range points.length)
    (make_vertex_vec points.length) [] hb
  rw [lib_fill_sets_decomp points h2]
  show (Lib.pass2 points _ _ _ []).1.length = _
  rw [pass2_agree points _ _ _ [] (by intro i hi; rw [hp1.1]; exact hb i hi)]
  rw [tri_pass2_len, hp1.1, hlen]

/-- `lib.rs`'s `fill_sets` mutates only flags: every record's structural part
is that of the freshly built vertex array. -/
theorem lib_fill_fst_shape (points : List (A × A)) (h2 : 2 ≤ points.length)
    (j : Nat) :
    shape (vget (Lib.fill_sets points (make_vertex_vec points.length)).1 j) =
      shape (vget (make_vertex_vec points.length) j) := by
  have hlen := length_make_vertex_vec points.length h2
  have hb : ∀ i ∈ List.range points.length,
      i < (make_vertex_vec points.length).length := by
    intro i hi; rw [hlen]; exact List.mem_range.mp hi
  have hp1 := lib_pass1_shape points (List.range points.length)
    (make_vertex_vec points.length) [] hb
  rw [lib_fill_sets_decomp points h2]
  show shape (vget (Lib.pass2 points _ _ _ []).1 j) = _
  rw [pass2_agree points _ _ _ [] (by intro i hi; rw [hp1.1]; exact hb i hi)]
  rw [tri_pass2_shape]
  exact hp1.2 j

/-- `triangulate`'s output specification, generic in the `fill_sets` variant:
for any input of at least 3 points, any admissible hash-set iteration order
and any variant whose `fill_sets` keeps the vertex array's structure and
builds an ear set of duplicate-free polygon indices, a successful run returns
exactly `3 * (N - 2)` indices, all below `N`, covering every polygon index. -/
theorem triangulate_with_ok_spec (points : List (A × A))
    (pick : List Nat → Option Nat)
    (hpick : ∀ s i, pick s = some i → i ∈ s)
    (fill : List (A × A) → List Vertex → List Vertex × List Nat × List Nat)
    (hlen : 4 ≤ points.length →
      (fill points (make_vertex_vec points.length)).1.length = points.length)
    (hshape : 4 ≤ points.length → ∀ j,
      shape (vget (fill points (make_vertex_vec points.length)).1 j) =
        shape (vget (make_vertex_vec points.length) j))
    (hsub : 4 ≤ points.length →
      ∀ i ∈ (fill points (make_vertex_vec points.length)).2.1,
        i < points.length)
    (hnd : 4 ≤ points.length →
      (fill points (make_vertex_vec points.length)).2.1.Nodup)
    (h3 : 3 ≤ points.length) (t : List Nat)
    (ht : triangulate_with fill pick points = Except.ok t) :
    t.length = 3 * (points.length - 2) ∧
    (∀ i ∈ t, i < points.length) ∧
    ∀ j < points.length, j ∈ t := by
  unfold triangulate_with at ht
  by_cases h4 : points.length < 4
  · have h3' : points.length = 3 := by omega
    rw [if_pos h4, if_pos h3'] at ht
    simp only [Except.ok.injEq] at ht
    subst ht
    rw [h3']
    refine ⟨by decide, by decide, by decide⟩
  · rw [if_neg h4] at ht
    have h4' : 4 ≤ points.length := by omega
    simp only [] at ht
    cases htl : tri_loop points pick points.length
        (fill points (make_vertex_vec points.length)).1
        (fill points (make_vertex_vec points.length)).2.1
        (fill points (make_vertex_vec points.length)).2.2 [] with
    | none =>
      rw [htl] at ht
      simp at ht
    | some r =>
      rw [htl] at ht
      simp only [] at ht
      subst ht
      have hmvlen : (make_vertex_vec points.length).length =
          (fill points (make_vertex_vec points.length)).1.length :=
        (length_make_vertex_vec points.length (by omega)).trans (hlen h4').symm
      obtain ⟨rest, hr1, hr2, hr3, hr4⟩ :=
        tri_loop_ok_spec points pick hpick points.length points.length
          (List.range points.length)
          (fill points (make_vertex_vec points.length)).1
          (fill points (make_vertex_vec points.length)).2.1
          (fill points (make_vertex_vec points.length)).2.2 [] t
          (List.length_range points.length).symm
          (by rw [List.length_range]; omega)
          (hlen h4')
          (List.nodup_range points.length)
          (fun i hi => List.mem_range.mp hi)
          (cyc_inv_shape_invariant (make_vertex_vec points.length) _
            (List.range points.length)
            (fun j => (hshape h4' j).symm) hmvlen
            (cyc_inv_make points.length (by omega)))
          (fun i hi => List.mem_range.mpr (hsub h4' i hi))
          (hnd h4')
          htl
      rw [List.nil_append] at hr1
      subst hr1
      refine ⟨?_, hr2, ?_⟩
      · rw [hr4, List.length_range]
      · intro j hj
        exact hr3 j (List.mem_range.mpr hj)

/-- A hash-set iteration order that prefers the indices in `prefs` (in that
order) and otherwise yields the head: one admissible model per preference
list. -/
def pick_pref (prefs : List Nat) (s : List Nat) : Option Nat :=
  match prefs.filter s.contains with
  | p :: _ => some p
  | [] => pick_head s

/-- Modelled from the spec's precondition (not from the source): the signed
orientation of the point triple (a, b, c); positive means counter-clockwise. -/
def orient2 (a b c : Int × Int) : Int :=
  (b.1 - a.1) * (c.2 - a.2) - (b.2 - a.2) * (c.1 - a.1)

/-- Modelled from the spec's precondition: point p lies on the closed segment
from a to b. -/
def on_seg (a b p : Int × Int) : Prop :=
  orient2 a b p = 0 ∧ min a.1 b.1 ≤ p.1 ∧ p.1 ≤ max a.1 b.1 ∧
    min a.2 b.2 ≤ p.2 ∧ p.2 ≤ max a.2 b.2

/-- Modelled from the spec's precondition: the closed segments [p1, p2] and
[q1, q2] share at least one point. -/
def segs_intersect (p1 p2 q1 q2 : Int × Int) : Prop :=
  (((0 < orient2 q1 q2 p1 ∧ orient2 q1 q2 p2 < 0) ∨
    (orient2 q1 q2 p1 < 0 ∧ 0 < orient2 q1 q2 p2)) ∧
   ((0 < orient2 p1 p2 q1 ∧ orient2 p1 p2 q2 < 0) ∨
    (orient2 p1 p2 q1 < 0 ∧ 0 < orient2 p1 p2 q2))) ∨
  on_seg q1 q2 p1 ∨ on_seg q1 q2 p2 ∨ on_seg p1 p2 q1 ∨ on_seg p1 p2 q2

/-- Modelled from the spec's precondition: the shoelace sum (twice the signed
area) of a polygon; positive for counter-clockwise listings. -/
def shoelace (pts : List (Int × Int)) : Int :=
  (List.range pts.length).foldl
    (fun acc i => acc +
      ((pget pts i).1 * (pget pts (inext pts.length i)).2 -
       (pget pts (inext pts.length i)).1 * (pget pts i).2)) 0

/-- Modelled from the spec's precondition: a simple polygon listed in
counter-clockwise order -- at least 3 pairwise distinct vertices, positive
signed area, at no corner do the two incident edges overlap (a colinear
corner whose neighbours lie on the same side would fold the boundary back
over itself), and no two non-adjacent edges share any point. -/
def IsSimpleCCW (pts : List (Int × Int)) : Prop :=
  3 ≤ pts.length ∧ pts.Nodup ∧ 0 < shoelace pts ∧
  (∀ k < pts.length,
    ¬ (orient2 (pget pts (iprev pts.length k)) (pget pts k)
         (pget pts (inext pts.length k)) = 0 ∧
       0 < ((pget pts (iprev pts.length k)).1 - (pget pts k).1) *
             ((pget pts (inext pts.length k)).1 - (pget pts k).1) +
           ((pget pts (iprev pts.length k)).2 - (pget pts k).2) *
             ((pget pts (inext pts.length k)).2 - (pget pts k).2))) ∧
  (∀ i < pts.length, ∀ j < pts.length,
    ¬ (i < j ∧ ¬ (j = i + 1 ∨ (i = 0 ∧ j = pts.length - 1)) ∧
       segs_intersect (pget pts i) (pget pts (inext pts.length i))
         (pget pts j) (pget pts (inext pts.length j))))

instance (a b p : Int × Int) : Decidable (on_seg a b p) := by
  unfold on_seg
  infer_instance

instance (p1 p2 q1 q2 : Int × Int) : Decidable (segs_intersect p1 p2 q1 q2) := by
  unfold segs_intersect
  infer_instance

instance (pts : List (Int × Int)) : Decidable (IsSimpleCCW pts) := by
  unfold IsSimpleCCW
  infer_instance

theorem pick_pref_ok (prefs : List Nat) : PickOk (pick_pref prefs) := by
  constructor
  · intro s i h
    unfold pick_pref at h
    cases hf : prefs.filter s.contains with
    | nil =>
      rw [hf] at h
      exact pick_head_ok.1 s i h
    | cons p rest =>
      rw [hf] at h
      simp only [Option.some.injEq] at h
      subst h
      have hp : p ∈ prefs.filter s.contains := by
        rw [hf]
        exact List.mem_cons_self p rest
      have hc := List.of_mem_filter hp
      simpa using hc
  · intro s
    constructor
    · intro h
      unfold pick_pref at h
      cases hf : prefs.filter s.contains with
      | nil =>
        rw [hf] at h
        exact (pick_head_ok.2 s).mp h
      | cons p rest =>
        rw [hf] at h
        simp at h
    · intro h
      subst h
      have hf : prefs.filter List.nil.contains = [] := by
        rw [List.filter_eq_nil_iff]
        intro a _
        simp
      unfold pick_pref
      rw [hf]
      rfl

/-- A simple counter-clockwise polygon with a colinear vertex triple: the
fourth edge of the square (0,0), (2,0), (2,2), (0,2) carries the extra vertex
(0,1), so vertices 0, 3 and 4 are colinear. -/
def c2_points : List (Int × Int) :=
  [(0, 0), (2, 0), (2, 2), (0, 2), (0, 1)]

/-- The reflex-polygon example from the specification and the repository's
tests: points (0,0), (5,0), (2,2), (5,4), (0,4); index 2 is reflex. -/
def reflex_points : List (Int × Int) :=
  [(0, 0), (5, 0), (2, 2), (5, 4), (0, 4)]

/-- Group an index stream into consecutive triples. -/
def triples : List Nat → List (Nat × Nat × Nat)
  | a :: b :: c :: rest => (a, b, c) :: triples rest
  | _ => []

/-- The lexicographically smallest rotation of a triple's listing. -/
def rot_canon (t : Nat × Nat × Nat) : Nat × Nat × Nat :=
  let r1 := t
  let r2 := (t.2.1, t.2.2, t.1)
  let r3 := (t.2.2, t.1, t.2.1)
  let le := fun (a b : Nat × Nat × Nat) =>
    a.1 < b.1 ∨ (a.1 = b.1 ∧ (a.2.1 < b.2.1 ∨ (a.2.1 = b.2.1 ∧ a.2.2 ≤ b.2.2)))
  if le r1 r2 then (if le r1 r3 then r1 else r3)
  else (if le r2 r3 then r2 else r3)

/-- An emitted index stream equals an expected triangle set up to rotation of
each triple's listing (the comparison the repository's tests perform). -/
def same_triangulation (t : List Nat) (expected : List (Nat × Nat × Nat)) : Bool :=
  decide (((triples t).map rot_canon).Perm (expected.map rot_canon))

/-! ## The path-to-geometry compiler of `src/gl2d/drawing.rs`

Coordinates and colors are modelled over `ℚ` (every claim about this module is
about control flow, list surgery and comparisons; all concrete inputs have
small dyadic coordinates, on which `f32` arithmetic is exact).  A Rust panic
(out-of-bounds index, usize underflow, explicit `panic!`) is modelled as
`none`; a typed `Err` is the second component of the returned pair, alongside
the drawing state at the moment of the early return. -/

/-- Modelled from the spec (the crate-root module defining the error enum is
not among the provided sources): the typed errors surfaced to callers. -/
inductive TrdlError where
  | NotEnoughVertices
  | NonSimplePolygon
  | NoVisibleGeometry
  | ArcToIsLineTo
deriving Repr, DecidableEq

/-- Modelled from the spec: the conversion the crate root provides from the
triangulator's static error strings to the typed error enum. -/
def str_to_error (s : String) : TrdlError :=
  if s = errNotEnough then TrdlError.NotEnoughVertices
  else TrdlError.NonSimplePolygon

/-- `MAX_DEPTH` of `src/gl2d/drawing.rs` (`5e5f32`). -/
def MAX_DEPTH : ℚ := 500000

/-- `TOL` of `src/gl2d/drawing.rs` (`1e-5f32`). -/
def TOL : ℚ := 1 / 100000

/-- `struct Path` of `src/gl2d/drawing.rs`. -/
structure Path where
  vertices : List (ℚ × ℚ)
  control_point_1s : List (Option (ℚ × ℚ))
  control_point_2s : List (Option (ℚ × ℚ))
  fill_color : Option (ℚ × ℚ × ℚ)
  stroke : Option ((ℚ × ℚ × ℚ) × Nat)
  is_closed : Bool
deriving Repr, DecidableEq

/-- `Path::new`. -/
def Path.new (start : ℚ × ℚ) : Path :=
  { vertices := [start], control_point_1s := [], control_point_2s := [],
    fill_color := none, stroke := none, is_closed := false }

/-- `Path::line_to`. -/
def Path.line_to (p : Path) (end_point : ℚ × ℚ) : Path :=
  { p with control_point_1s := p.control_point_1s ++ [none],
           control_point_2s := p.control_point_2s ++ [none],
           vertices := p.vertices ++ [end_point] }

/-- `Path::curve_to`. -/
def Path.curve_to (p : Path) (control_point_1 control_point_2 end_point : ℚ × ℚ) :
    Path :=
  { p with control_point_1s := p.control_point_1s ++ [some control_point_1],
           control_point_2s := p.control_point_2s ++ [some control_point_2],
           vertices := p.vertices ++ [end_point] }

/-- `Path::set_stroke`. -/
def Path.set_stroke (p : Path) (color : ℚ × ℚ × ℚ) (thickness : Nat) : Path :=
  { p with stroke := some (color, thickness) }

/-- `Path::set_fill_color`. -/
def Path.set_fill_color (p : Path) (color : ℚ × ℚ × ℚ) : Path :=
  { p with fill_color := some color }

/-- `Path::close_path`: `none` models the panic of `self.vertices[0]` on a
vertex-less path (reachable only by closing an already-emptied path). -/
def Path.close_path (p : Path) : Option Path :=
  if p.vertices = [] then none
  else some (
    if pget p.vertices 0 = pget p.vertices (p.vertices.length - 1) then
      { p with is_closed := true, vertices := p.vertices.dropLast }
    else
      { p with is_closed := true,
               control_point_1s := p.control_point_1s ++ [none],
               control_point_2s := p.control_point_2s ++ [none] })

/-- The guard of `Path::fix_radii`, verbatim:
`if x_radius < TOL || y_radius == TOL { return Err(TrdlError::ArcToIsLineTo); }`.
`fix_radii` returns `Err` exactly when this guard fires (the rest of its body
only rescales the radii), `get_ellipse_params` propagates that `Err` through
`try!` as its only error exit, and `arc_to` falls back to `line_to(end_point)`
exactly when `get_ellipse_params` returns `Err` -- so this Bool decides the
claim's "falls back to line_to" behaviour. -/
def fix_radii_returns_line_to (x_radius y_radius : ℚ) : Bool :=
  decide (x_radius < TOL) || decide (y_radius = TOL)

/-- The buffers-and-counters state of `struct Drawing` (the GL handles,
shader program and window fields play no part in the claims). -/
structure Drawing where
  vertices : List ℚ
  control_point_1s : List ℚ
  control_point_2s : List ℚ
  fill_colors : List ℚ
  stroke_colors : List ℚ
  stroke_edges : List ℚ
  do_fill : List Int
  depth_idx : Nat
  num_tris : Nat
  remake : Bool
deriving Repr, DecidableEq

/-- The buffer state `Drawing::new` starts from (all buffers empty,
`depth_idx: 0, num_tris: 0, remake: true`). -/
def drawing0 : Drawing :=
  { vertices := [], control_point_1s := [], control_point_2s := [],
    fill_colors := [], stroke_colors := [], stroke_edges := [], do_fill := [],
    depth_idx := 0, num_tris := 0, remake := true }

/-- `push3` of `src/gl2d/drawing.rs`: pushes a color three times. -/
def push3 (vec : List ℚ) (value : ℚ × ℚ × ℚ) : List ℚ :=
  vec ++ [value.1, value.2.1, value.2.2, value.1, value.2.1, value.2.2,
          value.1, value.2.1, value.2.2]

/-- `bezier_line_control_points` of `src/gl2d/drawing.rs`. -/
def bezier_line_control_points (first last : ℚ × ℚ) :
    (ℚ × ℚ) × (ℚ × ℚ) :=
  let dx := (last.1 - first.1) / 3
  let dy := (last.2 - first.2) / 3
  let v1 := (first.1 + dx, first.2 + dy)
  (v1, (v1.1 + dx, v1.2 + dy))

/-- `Drawing::make_extra_point`. -/
def make_extra_point (p0 p1 : ℚ × ℚ) : Except TrdlError (ℚ × ℚ) :=
  let offset : ℚ := 5
  if p0.1 < p1.1 then
    if p0.2 < p1.2 then Except.ok ((p0.1 + p1.1) / 2, p1.2)
    else if p1.2 < p0.2 then Except.ok ((p0.1 + p1.1) / 2, p0.2)
    else Except.ok ((p0.1 + p1.1) / 2, p0.2 + offset)
  else if p1.1 < p0.1 then
    if p0.2 < p1.2 then Except.ok ((p0.1 + p1.1) / 2, p0.2)
    else if p1.2 < p0.2 then Except.ok ((p0.1 + p1.1) / 2, p1.2)
    else Except.ok ((p0.1 + p1.1) / 2, p0.2 - offset)
  else
    if p0.2 < p1.2 then Except.ok (p0.1 - offset, (p0.2 + p1.2) / 2)
    else if p1.2 < p0.2 then Except.ok (p0.1 + offset, (p0.2 + p1.2) / 2)
    else Except.error TrdlError.NonSimplePolygon

namespace Gl2d

/-- `triangle_edges` of `src/gl2d/drawing.rs`: which edges of the triangle
(i0, i1, i2) lie on the polygon boundary. -/
def triangle_edges (i0 i1 i2 max : Nat) : Bool × Bool × Bool :=
  let e2 := (i1 == 0 && i0 == max) || (decide (i0 < i1) && i1 - i0 == 1)
  let e0 := (i2 == 0 && i1 == max) || (decide (i1 < i2) && i2 - i1 == 1)
  let e1 := (i0 == 0 && i2 == max) || (decide (i2 < i0) && i0 - i2 == 1)
  (e0, e1, e2)

end Gl2d

namespace Bin

/-- `triangle_edges` of `src/bin.rs`: its `e1` tests `i2 > i2` (always false)
where the `src/gl2d/drawing.rs` version tests `i0 > i2`. -/
def triangle_edges (i0 i1 i2 max : Nat) : Bool × Bool × Bool :=
  let e2 := (i1 == 0 && i0 == max) || (decide (i0 < i1) && i1 - i0 == 1)
  let e0 := (i2 == 0 && i1 == max) || (decide (i1 < i2) && i2 - i1 == 1)
  let e1 := (i0 == 0 && i2 == max) || (decide (i2 < i2) && i0 - i2 == 1)
  (e0, e1, e2)

end Bin

/-- Modelled from the spec's words for C8 (the self-consistent three-way
rule): the directed edge i -> j of a triangle is a polygon boundary edge iff
j = i + 1, or i = max and j = 0 (wraparound). -/
def edge_rule (i j max : Nat) : Bool :=
  (j == i + 1) || (i == max && j == 0)

/-- One iteration of `Drawing::add_open_path`'s loop after the extra point
and the segment's control points have been obtained: the buffer pushes. -/
def open_step (p : Path) (color : ℚ × ℚ × ℚ) (thickness : Nat) (depth : ℚ)
    (i : Nat) (v2 cp1 cp2 : ℚ × ℚ) (d : Drawing) : Drawing :=
  let v0 := pget p.vertices i
  let v1 := pget p.vertices (i + 1)
  let q1 := bezier_line_control_points v1 v2
  let q2 := bezier_line_control_points v2 v0
  { d with
    vertices := d.vertices ++
      [v0.1, v0.2, depth, v1.1, v1.2, depth, v2.1, v2.2, depth],
    control_point_1s := d.control_point_1s ++
      [cp1.1, cp1.2, q1.1.1, q1.1.2, q2.1.1, q2.1.2],
    control_point_2s := d.control_point_2s ++
      [cp2.1, cp2.2, q1.2.1, q1.2.2, q2.2.1, q2.2.2],
    stroke_colors := push3 d.stroke_colors color,
    stroke_edges := d.stroke_edges ++ [0, 0, (thickness : ℚ)] }

/-- The `for i in 0..self.num_tris` loop of `Drawing::add_open_path`,
iterating `i` with the remaining iteration count as second argument.
`none` models the panics (out-of-bounds control-point index, or
`panic!("Inconsistent control points")`); a `NonSimplePolygon` error from
`make_extra_point` returns early with the buffers as mutated so far. -/
def open_loop (p : Path) (color : ℚ × ℚ × ℚ) (thickness : Nat) (depth : ℚ) :
    Nat → Nat → Drawing → Option (Drawing × Option TrdlError)
  | _, 0, d => some (d, none)
  | i, rem + 1, d =>
    match make_extra_point (pget p.vertices i) (pget p.vertices (i + 1)) with
    | Except.error e => some (d, some e)
    | Except.ok v2 =>
      match p.control_point_1s.get? i with
      | none => none
      | some none =>
        let b := bezier_line_control_points (pget p.vertices i)
          (pget p.vertices (i + 1))
        open_loop p color thickness depth (i + 1) rem
          (open_step p color thickness depth i v2 b.1 b.2 d)
      | some (some cp1) =>
        match p.control_point_2s.get? i with
        | none => none
        | some none => none
        | some (some cp2) =>
          open_loop p color thickness depth (i + 1) rem
            (open_step p color thickness depth i v2 cp1 cp2 d)

/-- `Drawing::add_open_path`.  The `fill_colors` / `do_fill` zero-fills and
the `depth_idx` increment happen before the loop, exactly as in the source;
`none` models the `usize` underflow of `path.vertices.len() - 1` on a
vertex-less path and the panics inside the loop. -/
def add_open_path (d : Drawing) (p : Path) : Option (Drawing × Option TrdlError) :=
  match p.stroke with
  | none => some (d, some TrdlError.NoVisibleGeometry)
  | some (color, thickness) =>
    if p.vertices.length = 0 then none
    else
      let num_tris := p.vertices.length - 1
      let depth := (MAX_DEPTH - ((d.depth_idx + 1 : Nat) : ℚ)) / MAX_DEPTH
      open_loop p color thickness depth 0 num_tris
        { d with
          num_tris := num_tris,
          fill_colors := d.fill_colors ++ List.replicate (9 * num_tris) 0,
          do_fill := d.do_fill ++ List.replicate (3 * num_tris) 0,
          depth_idx := d.depth_idx + 1 }

/-- The control-point map of `Drawing::add_closed_path` (`HashMap` keyed by
index pairs; keys are inserted at most once, so an association list with
front insertion is a faithful model). -/
def CPMap : Type := List ((Nat × Nat) × ((ℚ × ℚ) × (ℚ × ℚ)))

/-- One entry-building step of `add_closed_path`'s control-point-map loop:
reads `control_point_1s[i]` / `control_point_2s[i]` (out of bounds: panic,
modelled `none`) and inserts under key (i, j); `Some`/`None` mismatch is the
`panic!("inconsistent control points!")`. -/
def cp_map_entry (p : Path) (i j : Nat) (m : CPMap) : Option CPMap :=
  match p.control_point_1s.get? i with
  | none => none
  | some none => some m
  | some (some cp1) =>
    match p.control_point_2s.get? i with
    | none => none
    | some none => none
    | some (some cp2) => some (((i, j), (cp1, cp2)) :: m)

/-- The `for i in 0..last` loop building the control-point map. -/
def cp_map_loop (p : Path) : Nat → Nat → CPMap → Option CPMap
  | _, 0, m => some m
  | i, rem + 1, m =>
    match cp_map_entry p i (i + 1) m with
    | none => none
    | some m2 => cp_map_loop p (i + 1) rem m2

/-- The whole control-point map of `add_closed_path`: entries (i, i+1) for
i < last, then the wraparound entry (last, 0). -/
def build_cp_map (p : Path) (last : Nat) : Option CPMap :=
  match cp_map_loop p 0 last [] with
  | none => none
  | some m => cp_map_entry p last 0 m

/-- `get_control_points` of `src/gl2d/drawing.rs`: pushes the segment start
vertex (with depth) and the segment's control points, computing and caching
straight-line control points for edges absent from the map. -/
def get_control_points (polygon : List (ℚ × ℚ)) (i0 i1 : Nat) (depth : ℚ)
    (m : CPMap) (vs cp1s cp2s : List ℚ) :
    CPMap × List ℚ × List ℚ × List ℚ :=
  let v0 := pget polygon i0
  let v1 := pget polygon i1
  let vs2 := vs ++ [v0.1, v0.2, depth]
  match List.lookup (i0, i1) m with
  | some cp12 =>
    (m, vs2, cp1s ++ [cp12.1.1, cp12.1.2], cp2s ++ [cp12.2.1, cp12.2.2])
  | none =>
    let b := bezier_line_control_points v0 v1
    (((i0, i1), b) :: m, vs2, cp1s ++ [b.1.1, b.1.2], cp2s ++ [b.2.1, b.2.2])

/-- One iteration of `add_closed_path`'s triangle-emission loop. -/
def closed_step (poly : List (ℚ × ℚ)) (indices : List Nat) (num_verts : Nat)
    (depth : ℚ) (stroke : Option ((ℚ × ℚ × ℚ) × Nat))
    (fill : Option (ℚ × ℚ × ℚ)) (t : Nat) (m : CPMap) (d : Drawing) :
    CPMap × Drawing :=
  let i0 := indices.getD (3 * t) 0
  let i1 := indices.getD (3 * t + 1) 0
  let i2 := indices.getD (3 * t + 2) 0
  let r1 := get_control_points poly i0 i1 depth m d.vertices
    d.control_point_1s d.control_point_2s
  let r2 := get_control_points poly i1 i2 depth r1.1 r1.2.1 r1.2.2.1 r1.2.2.2
  let r3 := get_control_points poly i2 i0 depth r2.1 r2.2.1 r2.2.2.1 r2.2.2.2
  let d2 := { d with vertices := r3.2.1, control_point_1s := r3.2.2.1,
                     control_point_2s := r3.2.2.2 }
  let d3 :=
    match stroke with
    | some (color, th) =>
      let e := Gl2d.triangle_edges i0 i1 i2 (num_verts - 1)
      { d2 with
        stroke_colors := push3 d2.stroke_colors color,
        stroke_edges := d2.stroke_edges ++
          [if e.1 then (th : ℚ) else 0, if e.2.1 then (th : ℚ) else 0,
           if e.2.2 then (th : ℚ) else 0] }
    | none =>
      { d2 with stroke_colors := push3 d2.stroke_colors (0, 0, 0),
                stroke_edges := d2.stroke_edges ++ [0, 0, 0] }
  match fill with
  | some fc =>
    (r3.1, { d3 with fill_colors := push3 d3.fill_colors fc,
                     do_fill := d3.do_fill ++ [1, 1, 1] })
  | none =>
    (r3.1, { d3 with fill_colors := push3 d3.fill_colors (0, 0, 0),
                     do_fill := d3.do_fill ++ [0, 0, 0] })

/-- The `for t in 0..self.num_tris` loop of `add_closed_path`. -/
def closed_loop (poly : List (ℚ × ℚ)) (indices : List Nat) (num_verts : Nat)
    (depth : ℚ) (stroke : Option ((ℚ × ℚ × ℚ) × Nat))
    (fill : Option (ℚ × ℚ × ℚ)) :
    Nat → Nat → CPMap → Drawing → Drawing
  | _, 0, _, d => d
  | t, rem + 1, m, d =>
    let r := closed_step poly indices num_verts depth stroke fill t m d
    closed_loop poly indices num_verts depth stroke fill (t + 1) rem r.1 r.2

/-- `Drawing::add_closed_path`, parameterised by the triangulator's hash-set
iteration order.  `none` models the panic on a vertex-less path: the source
computes `let last = path.vertices.len() - 1;` with no emptiness check, so
the subtraction underflows and `path.control_point_1s[last]` indexes out of
bounds. -/
def add_closed_path (pick : List Nat → Option Nat) (d : Drawing) (p : Path) :
    Option (Drawing × Option TrdlError) :=
  if p.vertices.length = 0 then none
  else
    match build_cp_map p (p.vertices.length - 1) with
    | none => none
    | some m =>
      match Tri.triangulate pick p.vertices with
      | Except.error e => some (d, some (str_to_error e))
      | Except.ok indices =>
        let num_tris := indices.length / 3
        let depth := (MAX_DEPTH - ((d.depth_idx + 1 : Nat) : ℚ)) / MAX_DEPTH
        some (closed_loop p.vertices indices p.vertices.length depth
          p.stroke p.fill_color num_tris 0 m
          { d with num_tris := num_tris, depth_idx := d.depth_idx + 1 },
          none)

/-- `Drawing::add_path`: sets `remake`, then dispatches on `is_closed`. -/
def add_path (pick : List Nat → Option Nat) (d : Drawing) (p : Path) :
    Option (Drawing × Option TrdlError) :=
  let d0 := { d with remake := true }
  if p.is_closed then add_closed_path pick d0 p else add_open_path d0 p

/-- `make_extra_point` returns a point (never errs) whenever the two segment
ends differ: the `NonSimplePolygon` branch is the all-coordinates-equal one. -/
theorem make_extra_point_ok (p0 p1 : ℚ × ℚ) (h : p0 ≠ p1) :
    ∃ v2, make_extra_point p0 p1 = Except.ok v2 := by
  unfold make_extra_point
  split_ifs <;>
    first
      | exact ⟨_, rfl⟩
      | (exfalso
         apply h
         apply Prod.ext
         · exact le_antisymm (le_of_not_lt (by assumption))
             (le_of_not_lt (by assumption))
         · exact le_antisymm (le_of_not_lt (by assumption))
             (le_of_not_lt (by assumption)))

/-- The specification of `add_open_path`'s loop, by induction on the
remaining iteration count: with distinct consecutive vertices and consistent
control points the loop succeeds, pushing 9 position floats and the stroke
edge pattern [0, 0, thickness] per triangle and touching no other buffer. -/
theorem open_loop_spec (p : Path) (color : ℚ × ℚ × ℚ) (th : Nat) (depth : ℚ)
    (hdist : ∀ k, k + 1 < p.vertices.length →
      pget p.vertices k ≠ pget p.vertices (k + 1))
    (hlen1 : p.control_point_1s.length + 1 = p.vertices.length)
    (hcons : ∀ k cp1, p.control_point_1s.get? k = some (some cp1) →
      ∃ cp2, p.control_point_2s.get? k = some (some cp2)) :
    ∀ (rem i : Nat) (d : Drawing), i + rem + 1 = p.vertices.length →
      ∃ d', open_loop p color th depth i rem d = some (d', none) ∧
        d'.vertices.length = d.vertices.length + 9 * rem ∧
        d'.stroke_edges = d.stroke_edges ++
          (List.replicate rem [0, 0, (th : ℚ)]).join ∧
        d'.depth_idx = d.depth_idx ∧
        d'.fill_colors = d.fill_colors ∧
        d'.do_fill = d.do_fill ∧
        d'.remake = d.remake ∧
        d'.num_tris = d.num_tris := by
  intro rem
  induction rem with
  | zero =>
    intro i d _
    exact ⟨d, rfl, by simp, by simp, rfl, rfl, rfl, rfl, rfl⟩
  | succ m ih =>
    intro i d hsum
    have hi1 : i + 1 < p.vertices.length := by omega
    obtain ⟨v2, hv2⟩ := make_extra_point_ok _ _ (hdist i hi1)
    have hilt : i < p.control_point_1s.length := by omega
    rw [open_loop, hv2]
    cases hcp : p.control_point_1s.get? i with
    | none =>
      exfalso
      rw [List.get?_eq_none] at hcp
      omega
    | some o =>
      cases o with
      | none =>
        simp only []
        obtain ⟨d', h1, h2, h3, h4, h5, h6, h7, h8⟩ := ih (i + 1)
          (open_step p color th depth i v2
            (bezier_line_control_points (pget p.vertices i)
              (pget p.vertices (i + 1))).1
            (bezier_line_control_points (pget p.vertices i)
              (pget p.vertices (i + 1))).2 d)
          (by omega)
        refine ⟨d', h1, ?_, ?_, ?_, ?_, ?_, ?_, ?_⟩
        · rw [h2]
          simp only [open_step, List.length_append, List.length_cons,
            List.length_nil]
          omega
        · rw [h3]
          simp [open_step, List.replicate_succ, List.append_assoc]
        · exact h4
        · exact h5
        · exact h6
        · exact h7
        · exact h8
      | some cp1 =>
        obtain ⟨cp2, hcp2⟩ := hcons i cp1 hcp
        rw [hcp2]
        simp only []
        obtain ⟨d', h1, h2, h3, h4, h5, h6, h7, h8⟩ := ih (i + 1)
          (open_step p color th depth i v2 cp1 cp2 d) (by omega)
        refine ⟨d', h1, ?_, ?_, ?_, ?_, ?_, ?_, ?_⟩
        · rw [h2]
          simp only [open_step, List.length_append, List.length_cons,
            List.length_nil]
          omega
        · rw [h3]
          simp [open_step, List.replicate_succ, List.append_assoc]
        · exact h4
        · exact h5
        · exact h6
        · exact h7
        · exact h8

/-- Both sources' boundary-edge expression for a directed edge a -> b agrees
with the spec's three-way rule. -/
theorem edge_flag_eq (a b m : Nat) :
    ((b == 0 && a == m) || (decide (a < b) && b - a == 1)) = edge_rule a b m := by
  rw [Bool.eq_iff_iff]
  simp only [edge_rule, Bool.or_eq_true, Bool.and_eq_true, beq_iff_eq,
    decide_eq_true_eq]
  omega

end Trdl

/-- C3: for every input point list, `triangulate`'s main loop terminates: from
any state whose surviving-vertex counter `n` is at least 4 the loop returns
within its fuel (each iteration either returns or removes exactly one vertex,
decrementing `n`), and whenever the ear set is empty while more than 3
vertices remain it immediately returns the non-simple-polygon error. -/
theorem c3_termination_and_empty_ear_guard :
    (∀ (points : List (Int × Int)) (pick : List Nat → Option Nat) (n : Nat)
       (vs : List Trdl.Vertex) (es rs tris : List Nat), 4 ≤ n →
        (Trdl.tri_loop points pick n vs es rs tris).isSome) ∧
    (∀ (points : List (Int × Int)) (pick : List Nat → Option Nat),
      Trdl.PickOk pick →
      ∀ (n : Nat) (vs : List Trdl.Vertex) (rs tris : List Nat), 3 < n →
        Trdl.tri_loop points pick n vs [] rs tris =
          some (Except.error Trdl.errNoEar)) := by
  constructor
  · intro points pick n vs es rs tris hn
    exact Trdl.tri_loop_isSome_of_four_le points pick n hn vs es rs tris
  · intro points pick hpick n vs rs tris hn
    exact Trdl.tri_loop_empty_ear points pick hpick n vs rs tris hn

/-- Witness for C3 at a concrete state: the square polygon's loop state with
counter 4 returns a value, and an empty ear set with counter 5 yields the
error immediately. -/
theorem c3_termination_and_empty_ear_guard_witness :
    (Trdl.tri_loop [((0:Int),(0:Int)), (1,0), (1,1), (0,1)] Trdl.pick_head 4
      (Trdl.make_vertex_vec 4) [0, 1, 2, 3] [] []).isSome ∧
    Trdl.tri_loop [((0:Int),(0:Int)), (1,0), (1,1), (0,1)] Trdl.pick_head 5
      (Trdl.make_vertex_vec 4) [] [] [] = some (Except.error Trdl.errNoEar) :=
  ⟨c3_termination_and_empty_ear_guard.1 _ _ _ _ _ _ _ (by norm_num),
   c3_termination_and_empty_ear_guard.2 _ _ Trdl.pick_head_ok _ _ _ _ (by norm_num)⟩

/-- C4 (counterexample): the claim's final clause -- after `fill_sets` a
vertex's `is_ear` flag is true exactly when the vertex is in the ear set --
fails for the `src/lib.rs` variant on the specification's own reflex-polygon
example: `fill_sets`' first pass runs the ear test for vertex 0 against the
still-empty reflex set and sets its flag, the second pass (correctly) keeps
vertex 0 out of the ear set because reflex vertex 2 lies strictly inside
triangle (4, 0, 1), but the stale flag is never cleared. -/
theorem c4_is_ear_flag_counterexample :
    (Trdl.vget (Trdl.Lib.fill_sets Trdl.reflex_points
      (Trdl.make_vertex_vec Trdl.reflex_points.length)).1 0).is_ear = true ∧
    0 ∉ (Trdl.Lib.fill_sets Trdl.reflex_points
      (Trdl.make_vertex_vec Trdl.reflex_points.length)).2.1 := by
  constructor
  · decide
  · decide

/-- C4 (amended): after the two-pass classification (`fill_sets`) of any
polygon of N >= 4 vertices, in both source variants: the reflex set contains
exactly the non-convex vertices; the ear set contains exactly the convex
vertices for which no member of the complete reflex set other than their own
prev/next lies strictly inside their (prev, self, next) triangle; the two sets
are disjoint; and the `is_ear` flag is true for every ear-set member.  In the
`src/triangulation.rs` variant the flag is moreover true ONLY for ear-set
members; in `src/lib.rs` the converse fails (see the counterexample). -/
theorem c4_fill_sets_two_pass_classification (points : List (Int × Int))
    (h4 : 4 ≤ points.length) :
    (Trdl.Lib.fill_sets points (Trdl.make_vertex_vec points.length)).2 =
      (Trdl.Tri.fill_sets points (Trdl.make_vertex_vec points.length)).2 ∧
    (∀ r, r ∈ (Trdl.Tri.fill_sets points (Trdl.make_vertex_vec points.length)).2.2 ↔
      r < points.length ∧
      Trdl.is_convex (Trdl.pget points r)
        (Trdl.pget points (Trdl.iprev points.length r))
        (Trdl.pget points (Trdl.inext points.length r)) = false) ∧
    (∀ i, i ∈ (Trdl.Tri.fill_sets points (Trdl.make_vertex_vec points.length)).2.1 ↔
      i < points.length ∧
      Trdl.is_convex (Trdl.pget points i)
        (Trdl.pget points (Trdl.iprev points.length i))
        (Trdl.pget points (Trdl.inext points.length i)) = true ∧
      ∀ r ∈ (Trdl.Tri.fill_sets points (Trdl.make_vertex_vec points.length)).2.2,
        r ≠ Trdl.iprev points.length i → r ≠ Trdl.inext points.length i →
          Trdl.is_in_triangle (Trdl.pget points r)
            (Trdl.pget points (Trdl.iprev points.length i))
            (Trdl.pget points i)
            (Trdl.pget points (Trdl.inext points.length i)) = false) ∧
    (∀ i, ¬ (i ∈ (Trdl.Tri.fill_sets points (Trdl.make_vertex_vec points.length)).2.1 ∧
             i ∈ (Trdl.Tri.fill_sets points (Trdl.make_vertex_vec points.length)).2.2)) ∧
    (∀ i, (Trdl.vget (Trdl.Tri.fill_sets points (Trdl.make_vertex_vec points.length)).1 i).is_ear = true ↔
      i ∈ (Trdl.Tri.fill_sets points (Trdl.make_vertex_vec points.length)).2.1) ∧
    (∀ i ∈ (Trdl.Lib.fill_sets points (Trdl.make_vertex_vec points.length)).2.1,
      (Trdl.vget (Trdl.Lib.fill_sets points (Trdl.make_vertex_vec points.length)).1 i).is_ear = true) := by
  refine ⟨Trdl.fill_sets_sets_eq points h4,
    Trdl.tri_fill_sets_reflex_mem points h4, ?_, ?_, ?_,
    Trdl.lib_fill_sets_flag_fwd points h4⟩
  · intro i
    rw [Trdl.tri_fill_sets_ear_mem points h4 i]
    constructor
    · rintro ⟨hi, hcv, hear⟩
      rw [Trdl.is_ear_iff] at hear
      exact ⟨hi, hcv, fun r hr => hear r hr⟩
    · rintro ⟨hi, hcv, hear⟩
      refine ⟨hi, hcv, ?_⟩
      rw [Trdl.is_ear_iff]
      exact fun r hr => hear r hr
  · intro i
    rintro ⟨hes, hrs⟩
    rw [Trdl.tri_fill_sets_ear_mem points h4 i] at hes
    rw [Trdl.tri_fill_sets_reflex_mem points h4 i] at hrs
    rw [hes.2.1] at hrs
    exact absurd hrs.2 (by simp)
  · intro i
    exact Trdl.tri_fill_sets_flag points h4 i

/-- Witness for C4's amended theorem at the reflex-polygon example: vertex 2
is in the reflex set, vertex 1 is in the ear set, and vertex 1's flag is
set in the pure variant. -/
theorem c4_fill_sets_two_pass_classification_witness :
    2 ∈ (Trdl.Tri.fill_sets Trdl.reflex_points
      (Trdl.make_vertex_vec Trdl.reflex_points.length)).2.2 ∧
    1 ∈ (Trdl.Tri.fill_sets Trdl.reflex_points
      (Trdl.make_vertex_vec Trdl.reflex_points.length)).2.1 := by
  have h := c4_fill_sets_two_pass_classification Trdl.reflex_points (by norm_num [Trdl.reflex_points])
  constructor
  · rw [h.2.1 2]
    constructor
    · norm_num [Trdl.reflex_points]
    · decide
  · rw [h.2.2.1 1]
    refine ⟨by norm_num [Trdl.reflex_points], by decide, ?_⟩
    intro r hr h1 h2
    rw [h.2.1 r] at hr
    have hr5 : r < 5 := by
      have := hr.1
      simpa [Trdl.reflex_points] using this
    interval_cases r <;> first
      | (exfalso; revert hr; decide)
      | decide

/-- C5: on the reflex-polygon example the `src/lib.rs` `triangulate` is NOT
correct under every admissible ear choice: with the admissible iteration
order that yields the smallest ear first (vertex 1 from the initial ear set
{1, 3}), it returns the ear-set-empty error -- vertex 0 should be promoted
into the ear set after vertex 1 is clipped, but its stale `is_ear` flag from
`fill_sets`' first pass routes re-classification into the demotion branch,
which leaves the ear set one short.  Under the same order the
`src/triangulation.rs` variant succeeds with exactly the expected triangle
set {(0,1,2), (0,2,4), (4,2,3)} up to rotation, as does `src/lib.rs` under
the head-first order (which clips vertex 3 first): the repository's own
`test_triangulate_reflex` therefore passes or fails with `lib.rs` depending
on `HashSet` iteration order. -/
theorem c5_reflex_polygon_example :
    Trdl.Lib.triangulate Trdl.pick_min Trdl.reflex_points =
      Except.error Trdl.errNoEar ∧
    Trdl.Tri.triangulate Trdl.pick_min Trdl.reflex_points =
      Except.ok [0, 1, 2, 4, 0, 2, 2, 3, 4] ∧
    Trdl.same_triangulation [0, 1, 2, 4, 0, 2, 2, 3, 4]
      [(0, 1, 2), (0, 2, 4), (4, 2, 3)] = true ∧
    Trdl.Lib.triangulate Trdl.pick_head Trdl.reflex_points =
      Except.ok [2, 3, 4, 2, 4, 0, 0, 1, 2] ∧
    Trdl.same_triangulation [2, 3, 4, 2, 4, 0, 0, 1, 2]
      [(0, 1, 2), (0, 2, 4), (4, 2, 3)] = true := by
  refine ⟨rfl, rfl, by decide, rfl, by decide⟩

/-- C2 (refuted): on the simple counter-clockwise polygon
(0,0), (2,0), (2,2), (0,2), (0,1) -- vertex 4 subdivides the left edge, so
vertices 0, 3, 4 are colinear -- the admissible hash-set iteration order that
clips vertex 1 and then vertex 2 leaves exactly the colinear vertices
{0, 3, 4} as the final triangle, which both source variants emit without any
ear or orientation test: the emitted triple (0, 3, 4) is degenerate (the
orientation of its three points in stream order is 0), contradicting the
claim that every emitted triple names three non-colinear points in
counter-clockwise winding. -/
theorem c2_degenerate_final_triangle :
    Trdl.IsSimpleCCW Trdl.c2_points ∧
    Trdl.PickOk (Trdl.pick_pref [1, 2]) ∧
    Trdl.Lib.triangulate (Trdl.pick_pref [1, 2]) Trdl.c2_points =
      Except.ok [0, 1, 2, 0, 2, 3, 0, 3, 4] ∧
    Trdl.Tri.triangulate (Trdl.pick_pref [1, 2]) Trdl.c2_points =
      Except.ok [0, 1, 2, 0, 2, 3, 0, 3, 4] ∧
    (0, 3, 4) ∈ Trdl.triples [0, 1, 2, 0, 2, 3, 0, 3, 4] ∧
    Trdl.compare_to_line (Trdl.pget Trdl.c2_points 3)
      (Trdl.pget Trdl.c2_points 0) (Trdl.pget Trdl.c2_points 4) = 0 :=
  ⟨by decide, Trdl.pick_pref_ok [1, 2], rfl, rfl, by decide, by decide⟩

/-- C1: for every input point list of N >= 3 points (in particular every
simple counter-clockwise polygon) and every admissible hash-set iteration
order, if `triangulate` -- in either source variant -- returns `Ok t`, then
`t` has exactly `3 * (N - 2)` entries, every entry is an index in `[0, N)`,
and every index in `[0, N)` appears in at least one emitted triangle. -/
theorem c1_triangulate_size_bounds_coverage (points : List (Int × Int))
    (pick : List Nat → Option Nat) (hpick : Trdl.PickOk pick)
    (h3 : 3 ≤ points.length) (t : List Nat)
    (ht : Trdl.Lib.triangulate pick points = Except.ok t ∨
          Trdl.Tri.triangulate pick points = Except.ok t) :
    t.length = 3 * (points.length - 2) ∧
    (∀ i ∈ t, i < points.length) ∧
    ∀ j < points.length, j ∈ t := by
  rcases ht with ht | ht
  · exact Trdl.triangulate_with_ok_spec points pick hpick.1 Trdl.Lib.fill_sets
      (fun h4 => Trdl.lib_fill_fst_len points (by omega))
      (fun h4 => Trdl.lib_fill_fst_shape points (by omega))
      (fun h4 => by
        rw [Trdl.lib_fill_es_eq points h4]
        exact Trdl.tri_fill_es_bound points h4)
      (fun h4 => by
        rw [Trdl.lib_fill_es_eq points h4]
        exact Trdl.tri_fill_es_nodup points (by omega))
      h3 t ht
  · exact Trdl.triangulate_with_ok_spec points pick hpick.1 Trdl.Tri.fill_sets
      (fun h4 => Trdl.tri_fill_fst_len points (by omega))
      (fun h4 => Trdl.tri_fill_fst_shape points (by omega))
      (fun h4 => Trdl.tri_fill_es_bound points h4)
      (fun h4 => Trdl.tri_fill_es_nodup points (by omega))
      h3 t ht

/-- Witness for C1 at the reflex-polygon example under the head-first
iteration order: `lib.rs`'s `triangulate` succeeds with 9 indices, all below
5, covering all five vertices. -/
theorem c1_triangulate_size_bounds_coverage_witness :
    Trdl.PickOk Trdl.pick_head ∧ 3 ≤ Trdl.reflex_points.length ∧
    (Trdl.Lib.triangulate Trdl.pick_head Trdl.reflex_points =
        Except.ok [2, 3, 4, 2, 4, 0, 0, 1, 2] ∨
     Trdl.Tri.triangulate Trdl.pick_head Trdl.reflex_points =
        Except.ok [2, 3, 4, 2, 4, 0, 0, 1, 2]) ∧
    ([2, 3, 4, 2, 4, 0, 0, 1, 2].length =
        3 * (Trdl.reflex_points.length - 2) ∧
     (∀ i ∈ [2, 3, 4, 2, 4, 0, 0, 1, 2], i < Trdl.reflex_points.length) ∧
     ∀ j < Trdl.reflex_points.length, j ∈ [2, 3, 4, 2, 4, 0, 0, 1, 2]) :=
  ⟨Trdl.pick_head_ok, by decide, Or.inl rfl,
   c1_triangulate_size_bounds_coverage Trdl.reflex_points Trdl.pick_head
     Trdl.pick_head_ok (by decide) _ (Or.inl rfl)⟩

/-- C6: closing any path (with at least one vertex -- every path built by the
`Path` API has one) marks it closed; if the last vertex equals the first the
duplicate final vertex is dropped (vertex count decreases by one) and both
control-point arrays are untouched, otherwise the vertices are unchanged and
exactly one absent (`None`) slot is appended to each control-point array. -/
theorem c6_close_path_spec (p : Trdl.Path) (h : p.vertices ≠ []) :
    ∃ q, Trdl.Path.close_path p = some q ∧ q.is_closed = true ∧
      q.fill_color = p.fill_color ∧ q.stroke = p.stroke ∧
      ((Trdl.pget p.vertices 0 =
          Trdl.pget p.vertices (p.vertices.length - 1) ∧
        q.vertices = p.vertices.dropLast ∧
        q.vertices.length + 1 = p.vertices.length ∧
        q.control_point_1s = p.control_point_1s ∧
        q.control_point_2s = p.control_point_2s) ∨
       (Trdl.pget p.vertices 0 ≠
          Trdl.pget p.vertices (p.vertices.length - 1) ∧
        q.vertices = p.vertices ∧
        q.control_point_1s = p.control_point_1s ++ [none] ∧
        q.control_point_2s = p.control_point_2s ++ [none])) := by
  unfold Trdl.Path.close_path
  rw [if_neg h]
  by_cases hc : Trdl.pget p.vertices 0 =
      Trdl.pget p.vertices (p.vertices.length - 1)
  · rw [if_pos hc]
    refine ⟨_, rfl, rfl, rfl, rfl, Or.inl ⟨hc, rfl, ?_, rfl, rfl⟩⟩
    have := List.length_pos.mpr h
    rw [List.length_dropLast]
    omega
  · rw [if_neg hc]
    exact ⟨_, rfl, rfl, rfl, rfl, Or.inr ⟨hc, rfl, rfl, rfl⟩⟩

/-- Witness for C6 on the triangle path (0,0) -> (1,0) -> (0,0) whose last
vertex equals its first: the duplicate is dropped. -/
theorem c6_close_path_spec_witness :
    (((Trdl.Path.new (0, 0)).line_to (1, 0)).line_to (0, 0)).vertices ≠ [] ∧
    (∃ q, Trdl.Path.close_path
        (((Trdl.Path.new (0, 0)).line_to (1, 0)).line_to (0, 0)) = some q ∧
      q.is_closed = true ∧
      q.fill_color = (((Trdl.Path.new (0, 0)).line_to (1, 0)).line_to (0, 0)).fill_color ∧
      q.stroke = (((Trdl.Path.new (0, 0)).line_to (1, 0)).line_to (0, 0)).stroke ∧
      ((Trdl.pget (((Trdl.Path.new (0, 0)).line_to (1, 0)).line_to (0, 0)).vertices 0 =
          Trdl.pget (((Trdl.Path.new (0, 0)).line_to (1, 0)).line_to (0, 0)).vertices
            ((((Trdl.Path.new (0, 0)).line_to (1, 0)).line_to (0, 0)).vertices.length - 1) ∧
        q.vertices = (((Trdl.Path.new (0, 0)).line_to (1, 0)).line_to (0, 0)).vertices.dropLast ∧
        q.vertices.length + 1 =
          (((Trdl.Path.new (0, 0)).line_to (1, 0)).line_to (0, 0)).vertices.length ∧
        q.control_point_1s =
          (((Trdl.Path.new (0, 0)).line_to (1, 0)).line_to (0, 0)).control_point_1s ∧
        q.control_point_2s =
          (((Trdl.Path.new (0, 0)).line_to (1, 0)).line_to (0, 0)).control_point_2s) ∨
       (Trdl.pget (((Trdl.Path.new (0, 0)).line_to (1, 0)).line_to (0, 0)).vertices 0 ≠
          Trdl.pget (((Trdl.Path.new (0, 0)).line_to (1, 0)).line_to (0, 0)).vertices
            ((((Trdl.Path.new (0, 0)).line_to (1, 0)).line_to (0, 0)).vertices.length - 1) ∧
        q.vertices = (((Trdl.Path.new (0, 0)).line_to (1, 0)).line_to (0, 0)).vertices ∧
        q.control_point_1s =
          (((Trdl.Path.new (0, 0)).line_to (1, 0)).line_to (0, 0)).control_point_1s ++ [none] ∧
        q.control_point_2s =
          (((Trdl.Path.new (0, 0)).line_to (1, 0)).line_to (0, 0)).control_point_2s ++ [none]))) :=
  ⟨by decide, c6_close_path_spec _ (by decide)⟩

/-- C7: for every open path, `add_path` with no stroke set fails with
`NoVisibleGeometry` leaving every attribute buffer and the depth counter
unchanged (only the `remake` flag is set); with a stroke set and no two
consecutive vertices identical it succeeds, appending exactly N-1 triangles:
9 position floats each, stroke edge pattern [0, 0, thickness] each (the two
synthetic edges carry 0, the real segment's edge the thickness), zero-filled
fill colors and do-fill flags, and one depth-counter increment. -/
theorem c7_add_path_open (pick : List Nat → Option Nat) (d : Trdl.Drawing)
    (p : Trdl.Path) (hopen : p.is_closed = false)
    (hlen1 : p.control_point_1s.length + 1 = p.vertices.length)
    (hcons : ∀ k cp1, p.control_point_1s.get? k = some (some cp1) →
      ∃ cp2, p.control_point_2s.get? k = some (some cp2)) :
    (p.stroke = none →
      Trdl.add_path pick d p =
        some ({ d with remake := true }, some Trdl.TrdlError.NoVisibleGeometry)) ∧
    ∀ color thickness, p.stroke = some (color, thickness) →
      (∀ k, k + 1 < p.vertices.length →
        Trdl.pget p.vertices k ≠ Trdl.pget p.vertices (k + 1)) →
      ∃ d', Trdl.add_path pick d p = some (d', none) ∧
        d'.vertices.length = d.vertices.length + 9 * (p.vertices.length - 1) ∧
        d'.stroke_edges = d.stroke_edges ++
          (List.replicate (p.vertices.length - 1) [0, 0, (thickness : ℚ)]).join ∧
        d'.fill_colors = d.fill_colors ++
          List.replicate (9 * (p.vertices.length - 1)) 0 ∧
        d'.do_fill = d.do_fill ++
          List.replicate (3 * (p.vertices.length - 1)) 0 ∧
        d'.depth_idx = d.depth_idx + 1 := by
  constructor
  · intro hs
    unfold Trdl.add_path
    simp only [hopen, Bool.false_eq_true, if_false]
    unfold Trdl.add_open_path
    rw [hs]
  · intro color thickness hs hdist
    unfold Trdl.add_path
    simp only [hopen, Bool.false_eq_true, if_false]
    unfold Trdl.add_open_path
    rw [hs]
    simp only []
    rw [if_neg (by omega)]
    obtain ⟨d', h1, h2, h3, h4, h5, h6, h7, h8⟩ :=
      Trdl.open_loop_spec p color thickness
        ((Trdl.MAX_DEPTH - ((d.depth_idx + 1 : Nat) : ℚ)) / Trdl.MAX_DEPTH)
        hdist hlen1 hcons (p.vertices.length - 1) 0
        { d with
          remake := true,
          num_tris := p.vertices.length - 1,
          fill_colors := d.fill_colors ++
            List.replicate (9 * (p.vertices.length - 1)) 0,
          do_fill := d.do_fill ++
            List.replicate (3 * (p.vertices.length - 1)) 0,
          depth_idx := d.depth_idx + 1 }
        (by omega)
    exact ⟨d', h1, h2, h3, h5, h6, h4⟩

/-- Witness for C7 on the open two-vertex path (0,0) -> (1,1): without a
stroke `add_path` fails with `NoVisibleGeometry`; with stroke ((1,0,0), 2)
it succeeds appending one triangle. -/
theorem c7_add_path_open_witness :
    (((Trdl.Path.new (0, 0)).line_to (1, 1)).is_closed = false ∧
     ((Trdl.Path.new (0, 0)).line_to (1, 1)).stroke = none ∧
     Trdl.add_path Trdl.pick_head Trdl.drawing0
       ((Trdl.Path.new (0, 0)).line_to (1, 1)) =
       some ({ Trdl.drawing0 with remake := true },
         some Trdl.TrdlError.NoVisibleGeometry)) ∧
    ((((Trdl.Path.new (0, 0)).line_to (1, 1)).set_stroke (1, 0, 0) 2).stroke =
       some ((1, 0, 0), 2) ∧
     ∃ d', Trdl.add_path Trdl.pick_head Trdl.drawing0
         ((((Trdl.Path.new (0, 0)).line_to (1, 1)).set_stroke (1, 0, 0)) 2) =
         some (d', none) ∧
       d'.vertices.length = Trdl.drawing0.vertices.length + 9 *
         (((((Trdl.Path.new (0, 0)).line_to (1, 1)).set_stroke (1, 0, 0)) 2).vertices.length - 1) ∧
       d'.stroke_edges = Trdl.drawing0.stroke_edges ++
         (List.replicate
           (((((Trdl.Path.new (0, 0)).line_to (1, 1)).set_stroke (1, 0, 0)) 2).vertices.length - 1)
           [0, 0, ((2 : Nat) : ℚ)]).join ∧
       d'.fill_colors = Trdl.drawing0.fill_colors ++
         List.replicate (9 *
           (((((Trdl.Path.new (0, 0)).line_to (1, 1)).set_stroke (1, 0, 0)) 2).vertices.length - 1)) 0 ∧
       d'.do_fill = Trdl.drawing0.do_fill ++
         List.replicate (3 *
           (((((Trdl.Path.new (0, 0)).line_to (1, 1)).set_stroke (1, 0, 0)) 2).vertices.length - 1)) 0 ∧
       d'.depth_idx = Trdl.drawing0.depth_idx + 1) :=
  ⟨⟨rfl, rfl,
    (c7_add_path_open Trdl.pick_head Trdl.drawing0
      ((Trdl.Path.new (0, 0)).line_to (1, 1)) rfl (by decide)
      (by
        intro k cp1 h
        rcases k with _ | k <;>
          simp [Trdl.Path.new, Trdl.Path.line_to] at h)).1 rfl⟩,
   ⟨rfl,
    (c7_add_path_open Trdl.pick_head Trdl.drawing0
      ((((Trdl.Path.new (0, 0)).line_to (1, 1)).set_stroke (1, 0, 0)) 2) rfl
      (by decide)
      (by
        intro k cp1 h
        rcases k with _ | k <;>
          simp [Trdl.Path.new, Trdl.Path.line_to, Trdl.Path.set_stroke] at h)).2
      (1, 0, 0) 2 rfl
      (by
        intro k hk
        have hk2 : k < 1 := by
          simp [Trdl.Path.new, Trdl.Path.line_to, Trdl.Path.set_stroke] at hk
          omega
        interval_cases k
        simp [Trdl.Path.new, Trdl.Path.line_to, Trdl.Path.set_stroke, Trdl.pget])⟩⟩

/-- C8 (counterexample to "every variant"): on the triangle (1, 2, 0) of a
4-vertex polygon (max = 3), the third flag -- edge i2 -> i0, here the
boundary edge 0 -> 1 -- is true under the spec's rule and under the
`src/gl2d/drawing.rs` helper, but false under the `src/bin.rs` helper, whose
`e1` tests the always-false `i2 > i2` instead of `i0 > i2`. -/
theorem c8_bin_e1_counterexample :
    (Trdl.Bin.triangle_edges 1 2 0 3).2.1 = false ∧
    Trdl.edge_rule 0 1 3 = true ∧
    (Trdl.Gl2d.triangle_edges 1 2 0 3).2.1 = true ∧
    Trdl.Bin.triangle_edges 1 2 0 3 ≠ Trdl.Gl2d.triangle_edges 1 2 0 3 := by
  decide

/-- C8 (amended): for every index triple and max index, the
`src/gl2d/drawing.rs` helper computes exactly the spec's boundary rule
(second index = first index + 1, or first = max and second = 0) for each of
the three directed edges (i0 -> i1, i1 -> i2, i2 -> i0); the `src/bin.rs`
variant agrees on the first and third flags but its second flag degenerates
to the bare wraparound test `i0 == 0 && i2 == max`. -/
theorem c8_triangle_edges_rule (i0 i1 i2 max : Nat) :
    Trdl.Gl2d.triangle_edges i0 i1 i2 max =
      (Trdl.edge_rule i1 i2 max, Trdl.edge_rule i2 i0 max,
       Trdl.edge_rule i0 i1 max) ∧
    (Trdl.Bin.triangle_edges i0 i1 i2 max).1 = Trdl.edge_rule i1 i2 max ∧
    (Trdl.Bin.triangle_edges i0 i1 i2 max).2.2 = Trdl.edge_rule i0 i1 max ∧
    (Trdl.Bin.triangle_edges i0 i1 i2 max).2.1 = (i0 == 0 && i2 == max) := by
  refine ⟨?_, ?_, ?_, ?_⟩
  · show (_, _, _) = (_, _, _)
    rw [Trdl.edge_flag_eq i1 i2 max, Trdl.edge_flag_eq i2 i0 max,
      Trdl.edge_flag_eq i0 i1 max]
  · exact Trdl.edge_flag_eq i1 i2 max
  · exact Trdl.edge_flag_eq i0 i1 max
  · show ((i0 == 0 && i2 == max) || (decide (i2 < i2) && i0 - i2 == 1)) = _
    simp

/-- C9 (refuted guard): `fix_radii`'s degenerate-radius guard tests
`y_radius == TOL` instead of `y_radius < TOL`.  Consequences, all exhibited
here: a degenerate x radius (0 < TOL) correctly takes the `line_to`
fallback; a degenerate y radius of 0 -- below the tolerance, so the claim
requires the fallback -- does NOT take it (the following math then divides
by `y_radius`); and a y radius exactly equal to TOL -- not degenerate --
takes the fallback it should not.  The `line_to` fallback itself appends
exactly one straight segment with absent control-point slots. -/
theorem c9_arc_to_degenerate_radius :
    (∀ p e, (Trdl.Path.line_to p e).vertices = p.vertices ++ [e] ∧
      (Trdl.Path.line_to p e).control_point_1s = p.control_point_1s ++ [none] ∧
      (Trdl.Path.line_to p e).control_point_2s = p.control_point_2s ++ [none]) ∧
    Trdl.fix_radii_returns_line_to 0 1 = true ∧
    ((0 : ℚ) < Trdl.TOL ∧ Trdl.fix_radii_returns_line_to 1 0 = false) ∧
    (¬ Trdl.TOL < Trdl.TOL ∧ Trdl.fix_radii_returns_line_to 1 Trdl.TOL = true) :=
  ⟨fun p e => ⟨rfl, rfl, rfl⟩,
   by norm_num [Trdl.fix_radii_returns_line_to, Trdl.TOL],
   ⟨by norm_num [Trdl.TOL],
    by norm_num [Trdl.fix_radii_returns_line_to, Trdl.TOL]⟩,
   ⟨lt_irrefl Trdl.TOL,
    by norm_num [Trdl.fix_radii_returns_line_to, Trdl.TOL]⟩⟩

/-- C10: closing a single-point path (`Path::new(p).close_path()`) triggers
the duplicate-drop rule on the lone vertex, leaving a closed path with zero
vertices; `add_path` on that path reaches `add_closed_path`'s unchecked
`path.vertices.len() - 1` and panics (`none` in the model) -- the subtraction
underflows and `control_point_1s[last]` indexes out of bounds -- instead of
returning a typed error such as `NotEnoughVertices`. -/
theorem c10_single_point_close_panics (pt : ℚ × ℚ) (d : Trdl.Drawing)
    (pick : List Nat → Option Nat) :
    ∃ q, Trdl.Path.close_path (Trdl.Path.new pt) = some q ∧
      q.vertices = [] ∧ q.is_closed = true ∧
      Trdl.add_path pick d q = none := by
  have hq : Trdl.Path.close_path (Trdl.Path.new pt) =
      some { Trdl.Path.new pt with
             is_closed := true,
             vertices := (Trdl.Path.new pt).vertices.dropLast } := by
    unfold Trdl.Path.close_path
    rw [if_neg (show ¬ (Trdl.Path.new pt).vertices = [] from
        List.cons_ne_nil pt []),
      if_pos (show Trdl.pget (Trdl.Path.new pt).vertices 0 =
          Trdl.pget (Trdl.Path.new pt).vertices
            ((Trdl.Path.new pt).vertices.length - 1) from rfl)]
  refine ⟨_, hq, rfl, rfl, ?_⟩
  simp [Trdl.add_path, Trdl.add_closed_path, Trdl.Path.new]
